import Mathlib

/-!
Verification development for the go-fuzzy inference engine and its DSL
compiler.  The Go sources are shallowly embedded: float64 values are
modelled by the exact extended rationals `XR` (rationals plus the IEEE
special values +Inf, -Inf and NaN, with the arithmetic and comparison
rules of IEEE-754 restricted to those values), maps are modelled by
association lists with insert-or-replace semantics, fallible functions
return `Except`, and panics are modelled as errors.
-/

namespace Fuzzy

attribute [local semireducible] Rat.mul Rat.inv Rat.sub Rat.add

/-- Extended rationals: the exact model of the float64 values produced by
the engine.  `fin q` is an ordinary (finite) value; `pinf`, `ninf` and
`nan` model +Inf, -Inf and NaN. -/
inductive XR where
  | nan : XR
  | ninf : XR
  | fin (q : ℚ) : XR
  | pinf : XR
  deriving DecidableEq, Repr

instance : OfNat XR 0 := ⟨XR.fin 0⟩
instance : OfNat XR 1 := ⟨XR.fin 1⟩

namespace XR

/-- IEEE `<` comparison: every comparison involving NaN is false. -/
def blt : XR → XR → Bool
  | nan, _ => false
  | _, nan => false
  | ninf, ninf => false
  | ninf, _ => true
  | _, ninf => false
  | pinf, _ => false
  | fin _, pinf => true
  | fin a, fin b => a < b

/-- IEEE `<=` comparison: every comparison involving NaN is false. -/
def ble : XR → XR → Bool
  | nan, _ => false
  | _, nan => false
  | ninf, _ => true
  | _, ninf => false
  | _, pinf => true
  | pinf, fin _ => false
  | fin a, fin b => a ≤ b

/-- Go `math.Min`: NaN if either argument is NaN, else the smaller value. -/
def min : XR → XR → XR
  | nan, _ => nan
  | _, nan => nan
  | ninf, _ => ninf
  | _, ninf => ninf
  | pinf, y => y
  | x, pinf => x
  | fin a, fin b => fin (Min.min a b)

/-- Go `math.Max`: NaN if either argument is NaN, else the larger value. -/
def max : XR → XR → XR
  | nan, _ => nan
  | _, nan => nan
  | pinf, _ => pinf
  | _, pinf => pinf
  | ninf, y => y
  | x, ninf => x
  | fin a, fin b => fin (Max.max a b)

/-- IEEE addition on the modelled values. -/
def add : XR → XR → XR
  | nan, _ => nan
  | _, nan => nan
  | pinf, ninf => nan
  | ninf, pinf => nan
  | pinf, _ => pinf
  | _, pinf => pinf
  | ninf, _ => ninf
  | _, ninf => ninf
  | fin a, fin b => fin (a + b)

/-- IEEE multiplication on the modelled values (0 * Inf = NaN). -/
def mul : XR → XR → XR
  | nan, _ => nan
  | _, nan => nan
  | pinf, pinf => pinf
  | pinf, ninf => ninf
  | ninf, pinf => ninf
  | ninf, ninf => pinf
  | pinf, fin b => if b = 0 then nan else if 0 < b then pinf else ninf
  | fin a, pinf => if a = 0 then nan else if 0 < a then pinf else ninf
  | ninf, fin b => if b = 0 then nan else if 0 < b then ninf else pinf
  | fin a, ninf => if a = 0 then nan else if 0 < a then ninf else pinf
  | fin a, fin b => fin (a * b)

/-- IEEE division on the modelled values (x/0 = ±Inf, 0/0 = NaN,
Inf/Inf = NaN, x/Inf = 0). -/
def div : XR → XR → XR
  | nan, _ => nan
  | _, nan => nan
  | pinf, pinf => nan
  | pinf, ninf => nan
  | ninf, pinf => nan
  | ninf, ninf => nan
  | pinf, fin b => if 0 ≤ b then pinf else ninf
  | ninf, fin b => if 0 ≤ b then ninf else pinf
  | fin _, pinf => fin 0
  | fin _, ninf => fin 0
  | fin a, fin b =>
    if b = 0 then (if a = 0 then nan else if 0 < a then pinf else ninf)
    else fin (a / b)

/-- `1 - x`, used by `Not` and by `Inverted` memberships. -/
def oneSub : XR → XR
  | nan => nan
  | pinf => ninf
  | ninf => pinf
  | fin a => fin (1 - a)

/-- Go `math.IsInf(x, 0)`. -/
def isInf : XR → Bool
  | pinf => true
  | ninf => true
  | _ => false

theorem min_pinf_left (v : XR) : XR.min XR.pinf v = v := by
  cases v <;> rfl

theorem max_ninf_left (v : XR) : XR.max XR.ninf v = v := by
  cases v <;> rfl

theorem max_self (v : XR) : XR.max v v = v := by
  cases v with
  | fin q => simp [XR.max]
  | _ => rfl

end XR

/-- The membership-function algebra of the engine
(`Constant`, `Linear`, `Triangular`, `Trapezoid`, `Inverted`,
`Min`, `Max`), one constructor per Go struct. -/
inductive Membership where
  | constant (y : XR) : Membership
  | linear (x1 x2 : ℚ) : Membership
  | triangular (x1 x2 x3 : ℚ) : Membership
  | trapezoid (x1 x2 x3 x4 : ℚ) : Membership
  | inverted (m : Membership) : Membership
  | minOf (ms : List Membership) : Membership
  | maxOf (ms : List Membership) : Membership

mutual

/-- `Membership.Value(x)`: the degree of membership of `x`, transcribed
case by case from the Go `Value` methods.  Divisions use IEEE semantics
via `XR.div` exactly where the Go code divides floats. -/
def Membership.value : Membership → ℚ → XR
  | .constant y, _ => y
  | .linear x1 x2, x =>
    if x1 = x2 then (if x < x1 then XR.fin 0 else XR.fin 1)
    else if x < x1 then XR.fin 0
    else if x ≤ x2 then XR.div (XR.fin (x - x1)) (XR.fin (x2 - x1))
    else XR.fin 1
  | .triangular x1 x2 x3, x =>
    if x1 < x ∧ x < x2 then XR.div (XR.fin (x - x1)) (XR.fin (x2 - x1))
    else if x2 ≤ x ∧ x ≤ x3 then XR.div (XR.fin (x3 - x)) (XR.fin (x3 - x2))
    else XR.fin 0
  | .trapezoid x1 x2 x3 x4, x =>
    if x1 < x ∧ x < x2 then
      (if x1 = x2 then XR.fin 1 else XR.div (XR.fin (x - x1)) (XR.fin (x2 - x1)))
    else if x2 ≤ x ∧ x ≤ x3 then XR.fin 1
    else if x3 < x ∧ x < x4 then
      (if x3 = x4 then XR.fin 1 else XR.div (XR.fin (x4 - x)) (XR.fin (x4 - x3)))
    else XR.fin 0
  | .inverted m, x => XR.oneSub (m.value x)
  | .minOf ms, x => Membership.minFold ms x XR.pinf
  | .maxOf ms, x => Membership.maxFold ms x XR.ninf

/-- The `MinMembership.Value` loop: `min = math.Min(min, mm.Value(x))`
over the operand list, seeded at +Inf. -/
def Membership.minFold : List Membership → ℚ → XR → XR
  | [], _, acc => acc
  | m :: rest, x, acc => Membership.minFold rest x (XR.min acc (m.value x))

/-- The `MaxMembership.Value` loop, seeded at -Inf. -/
def Membership.maxFold : List Membership → ℚ → XR → XR
  | [], _, acc => acc
  | m :: rest, x, acc => Membership.maxFold rest x (XR.max acc (m.value x))

end

mutual

/-- `Membership.Domain()`: the (min, max) pair reported by each variant,
transcribed from the Go `Domain` methods. -/
def Membership.domain : Membership → XR × XR
  | .constant y => (y, y)
  | .linear x1 x2 => (XR.fin x1, XR.fin x2)
  | .triangular x1 _ x3 => (XR.fin x1, XR.fin x3)
  | .trapezoid x1 _ _ x4 => (XR.fin x1, XR.fin x4)
  | .inverted m => m.domain
  | .minOf ms => Membership.domainFold ms (XR.pinf, XR.ninf)
  | .maxOf ms => Membership.domainFold ms (XR.pinf, XR.ninf)

/-- The `membershipsDomain` loop: componentwise min/max of the operand
domains, seeded at (+Inf, -Inf). -/
def Membership.domainFold : List Membership → XR × XR → XR × XR
  | [], acc => acc
  | m :: rest, acc =>
    Membership.domainFold rest
      (XR.min acc.1 m.domain.1, XR.max acc.2 m.domain.2)

end

/-- Association-list lookup with Go-map semantics (`m[k]`): the value of
the single binding for `k`, if present. -/
def mapLookup {α : Type} : List (String × α) → String → Option α
  | [], _ => none
  | (k, v) :: rest, key => if k = key then some v else mapLookup rest key

/-- Association-list insert-or-replace with Go-map semantics
(`m[k] = v`). -/
def mapInsert {α : Type} : List (String × α) → String → α → List (String × α)
  | [], key, v => [(key, v)]
  | (k, w) :: rest, key, v =>
    if k = key then (key, v) :: rest else (k, w) :: mapInsert rest key v

theorem mapLookup_mapInsert_self {α : Type} (m : List (String × α))
    (k : String) (v : α) : mapLookup (mapInsert m k v) k = some v := by
  induction m with
  | nil => simp [mapInsert, mapLookup]
  | cons p rest ih =>
    by_cases h : p.1 = k
    · simp [mapInsert, h, mapLookup]
    · simp [mapInsert, h, mapLookup, ih]

/-- The error taxonomy of the engine (`error.go`); panics raised by the
constructors are modelled by the corresponding error value. -/
inductive Err where
  | missingArguments : Err
  | undefinedVariable : Err
  | valueNotFound : Err
  | undefinedTerm : Err
  | variableAlreadyExists : Err
  | termAlreadyExists : Err
  deriving DecidableEq, Repr

instance {ε α : Type} [DecidableEq ε] [DecidableEq α] :
    DecidableEq (Except ε α) := fun
  | .error a, .error b =>
    if h : a = b then isTrue (by rw [h]) else isFalse (by simp [h])
  | .error _, .ok _ => isFalse (by simp)
  | .ok _, .error _ => isFalse (by simp)
  | .ok a, .ok b =>
    if h : a = b then isTrue (by rw [h]) else isFalse (by simp [h])

/-- A named fuzzy term (`Term`). -/
structure Term where
  name : String
  membership : Membership

/-- `NewTerm`. -/
def NewTerm (name : String) (membership : Membership) : Term :=
  ⟨name, membership⟩

/-- `Term.Domain()` delegates to the membership. -/
def Term.domain (t : Term) : XR × XR := t.membership.domain

/-- A linguistic variable (`Variable`): a term map plus the universe
bounds computed at construction time. -/
structure Variable where
  name : String
  terms : List (String × Term)
  universeMin : XR
  universeMax : XR

/-- `Variable.Term(name)`: lookup, `ErrUndefinedTerm` if absent. -/
def Variable.term (v : Variable) (name : String) : Except Err Term :=
  match mapLookup v.terms name with
  | some t => .ok t
  | none => .error .undefinedTerm

/-- The `NewVariable` loop indexing the terms and folding the universe
bounds (seeded at +Inf / -Inf); the duplicate-name panic becomes an
error. -/
def newVariableLoop : List Term → List (String × Term) → XR → XR →
    Except Err (List (String × Term) × XR × XR)
  | [], indexed, mn, mx => .ok (indexed, mn, mx)
  | t :: rest, indexed, mn, mx =>
    match mapLookup indexed t.name with
    | some _ => .error .termAlreadyExists
    | none =>
      newVariableLoop rest (mapInsert indexed t.name t)
        (XR.min mn t.domain.1) (XR.max mx t.domain.2)

/-- `NewVariable(name, terms...)`. -/
def NewVariable (name : String) (terms : List Term) : Except Err Variable :=
  (newVariableLoop terms [] XR.pinf XR.ninf).map fun (indexed, mn, mx) =>
    ⟨name, indexed, mn, mx⟩

/-- One aggregated inference result (`Result`); `membership` is an
`Option` mirroring the Go nil check in `Context.AddResult`. -/
structure Result where
  term : String
  truthDegree : XR
  membership : Option Membership

/-- The caller-facing result map (`Results`). -/
abbrev Results := List (String × List (String × Result))

/-- The crisp input values (`Values`). -/
abbrev Values := List (String × ℚ)

/-- The per-inference state (`Context`); the `variables` field is named
`vars` because `variables` is a Lean keyword. -/
structure Context where
  vars : List (String × Variable)
  inputs : List (String × ℚ)
  results : Results

/-- `Context.Variable(name)` (named `getVariable` because `variable` is
a Lean keyword). -/
def Context.getVariable (c : Context) (name : String) : Except Err Variable :=
  match mapLookup c.vars name with
  | some v => .ok v
  | none => .error .undefinedVariable

/-- `Context.Value(variable)`. -/
def Context.value (c : Context) (vname : String) : Except Err ℚ :=
  match mapLookup c.inputs vname with
  | some q => .ok q
  | none => .error .valueNotFound

/-- `Context.AddResult(variable, term, truthDegree)`: clip the term's
membership by `Min(Constant(truthDegree), term.Membership)` and merge it
into the running result for the (variable, term) pair. -/
def Context.addResult (c : Context) (vname : String) (term : Term)
    (truthDegree : XR) : Context :=
  let terms := (mapLookup c.results vname).getD []
  let result := (mapLookup terms term.name).getD
    ⟨term.name, truthDegree, none⟩
  let clippedMembership :=
    Membership.minOf [Membership.constant truthDegree, term.membership]
  let newMembership :=
    match result.membership with
    | some m => Membership.maxOf [m, clippedMembership]
    | none => clippedMembership
  let result2 : Result :=
    ⟨result.term, XR.max result.truthDegree truthDegree, some newMembership⟩
  { c with results :=
      mapInsert c.results vname (mapInsert terms term.name result2) }

/-- The `NewContext` loop indexing the variables; the duplicate-name
panic becomes an error. -/
def newContextLoop : List Variable → List (String × Variable) →
    Except Err (List (String × Variable))
  | [], vars => .ok vars
  | v :: rest, vars =>
    match mapLookup vars v.name with
    | some _ => .error .variableAlreadyExists
    | none => newContextLoop rest (mapInsert vars v.name v)

/-- `NewContext(variables, inputs)`. -/
def NewContext (vs : List Variable) (inputs : List (String × ℚ)) :
    Except Err Context :=
  (newContextLoop vs []).map fun vars => ⟨vars, inputs, []⟩

/-- The conclusion of a rule (`IsExpr`); fields renamed `varName` and
`termName` because `variable` is a Lean keyword. -/
structure IsExpr where
  varName : String
  termName : String

/-- The premise grammar (`Expr`): tagged variants Is / And / Or / Not. -/
inductive Expr where
  | is (v t : String) : Expr
  | and (exprs : List Expr) : Expr
  | or (exprs : List Expr) : Expr
  | not (expr : Expr) : Expr

mutual

/-- `Expr.Value(ctx)`, transcribed from the Go `Value` methods: `Is`
looks up variable, term and input value; `And`/`Or` fold min/max over
the children, seeded at +Inf / -Inf, propagating the first child error;
`Not` is one minus the child value. -/
def Expr.value : Expr → Context → Except Err XR
  | .is vname tname, ctx =>
    match ctx.getVariable vname with
    | .error err => .error err
    | .ok v =>
      match v.term tname with
      | .error err => .error err
      | .ok t =>
        match ctx.value vname with
        | .error err => .error err
        | .ok x => .ok (t.membership.value x)
  | .and exprs, ctx => Expr.andLoop exprs ctx XR.pinf
  | .or exprs, ctx => Expr.orLoop exprs ctx XR.ninf
  | .not expr, ctx =>
    match expr.value ctx with
    | .error err => .error err
    | .ok v => .ok (XR.oneSub v)

/-- The `AndExpr.Value` loop. -/
def Expr.andLoop : List Expr → Context → XR → Except Err XR
  | [], _, acc => .ok acc
  | e :: rest, ctx, acc =>
    match e.value ctx with
    | .error err => .error err
    | .ok v => Expr.andLoop rest ctx (XR.min acc v)

/-- The `OrExpr.Value` loop. -/
def Expr.orLoop : List Expr → Context → XR → Except Err XR
  | [], _, acc => .ok acc
  | e :: rest, ctx, acc =>
    match e.value ctx with
    | .error err => .error err
    | .ok v => Expr.orLoop rest ctx (XR.max acc v)

end

/-- A rule (`Rule`): premise expression and `IS` conclusion. -/
structure Rule where
  premise : Expr
  conclusion : IsExpr

/-- A defuzzification strategy (`DefuzzifyFunc`). -/
def DefuzzifyFunc := Membership → XR → XR → XR

/-- The engine (`Engine`): rules, variables and the pluggable
defuzzify function (the `variables` field is named `vars` because
`variables` is a Lean keyword). -/
structure Engine where
  rules : List Rule
  vars : List Variable
  defuzzify : DefuzzifyFunc

/-- The rule loop of `Engine.Infer`, in declaration order; the engine is
threaded through unchanged alongside the mutable context, mirroring the
Go loop which reads the engine and writes only the context.  Lookup or
premise errors abort the whole call. -/
def inferLoop : List Rule → Context → Engine → Except Err Context × Engine
  | [], ctx, e => (.ok ctx, e)
  | r :: rs, ctx, e =>
    match ctx.getVariable r.conclusion.varName with
    | .error err => (.error err, e)
    | .ok outputVariable =>
      match outputVariable.term r.conclusion.termName with
      | .error err => (.error err, e)
      | .ok outputTerm =>
        match r.premise.value ctx with
        | .error err => (.error err, e)
        | .ok truthDegree =>
          inferLoop rs
            (ctx.addResult r.conclusion.varName outputTerm truthDegree) e

/-- `Engine.Infer(values)`: build a fresh context, run every rule in
declaration order, return the accumulated results.  The (unchanged)
engine is returned alongside to expose the frame behaviour of the Go
method, which never writes to its receiver. -/
def Engine.infer (e : Engine) (values : Values) :
    Except Err Results × Engine :=
  match NewContext e.vars values with
  | .error err => (.error err, e)
  | .ok ctx =>
    match inferLoop e.rules ctx e with
    | (.error err, e2) => (.error err, e2)
    | (.ok ctx2, e2) => (.ok ctx2.results, e2)

/-- The linear scan (with break on first match) over `e.variables` at
the start of `Engine.Defuzzify`. -/
def findVariable : List Variable → String → Option Variable
  | [], _ => none
  | v :: rest, name => if v.name = name then some v else findVariable rest name

/-- `Engine.Defuzzify(variableName, results)`: undefined variable is a
fatal lookup error; a variable with no (or only empty) results returns
the universe midpoint without invoking the pluggable function; otherwise
the pluggable function is applied to the Max of the per-term result
memberships over the universe bounds.  (A nil result membership would
make the Go code panic later; `AddResult` never stores nil, so the
`getD` default in the aggregation is unreachable for engine-produced
results.) -/
def Engine.defuzzifyVariable (e : Engine) (variableName : String)
    (results : Results) : Except Err XR :=
  match findVariable e.vars variableName with
  | none => .error .undefinedVariable
  | some targetVariable =>
    match mapLookup results variableName with
    | none =>
      .ok (XR.div (XR.add targetVariable.universeMin
        targetVariable.universeMax) (XR.fin 2))
    | some variableResults =>
      if variableResults.isEmpty then
        .ok (XR.div (XR.add targetVariable.universeMin
          targetVariable.universeMax) (XR.fin 2))
      else
        let finalMembership := Membership.maxOf
          (variableResults.map fun p =>
            (p.2.membership).getD (Membership.maxOf []))
        .ok (e.defuzzify finalMembership targetVariable.universeMin
          targetVariable.universeMax)

/-- `Engine.Variables(variables...)`: wholesale replacement. -/
def Engine.withVariables (e : Engine) (vs : List Variable) : Engine :=
  { e with vars := vs }

/-- `Engine.Rules(rules...)`: wholesale replacement. -/
def Engine.withRules (e : Engine) (rs : List Rule) : Engine :=
  { e with rules := rs }

/-- The accumulation loop of `Centroid`: starting at `x`, take `n` steps
of size `step`, accumulating `num += y*x` and `den += y` with IEEE
arithmetic. -/
def centroidLoop (m : Membership) (step : ℚ) :
    ℕ → ℚ → XR → XR → XR × XR
  | 0, _, num, den => (num, den)
  | n + 1, x, num, den =>
    let y := m.value x
    centroidLoop m step n (x + step)
      (XR.add num (XR.mul y (XR.fin x))) (XR.add den y)

/-- The number of samples taken by the Go loop
`for x := min; x <= max; x += step` with exact arithmetic and a positive
step: the points `min + i*step ≤ max` are those with
`i ≤ (max-min)/step`. -/
def centroidSteps (a b s : ℚ) : ℕ := (((b - a) / s).floor + 1).toNat

/-- `Centroid(steps)`: Riemann-sum defuzzifier.  Faithful to the source:
it returns 0 (not the midpoint) when a universe bound is infinite or
`min >= max`; when the accumulated denominator is 0 it returns the
midpoint `(min+max)/2`.  `steps = 0` gives a float step of +Inf, so the
Go loop samples only `x = min`; for `steps < 0` the Go loop never
terminates, and that branch (unreachable from any real call) returns 0
here.  A NaN bound passes the guard and runs zero iterations, returning
the NaN midpoint. -/
def Centroid (steps : ℤ) : DefuzzifyFunc := fun m mn mx =>
  if mn.isInf || mx.isInf || XR.ble mx mn then XR.fin 0
  else
    match mn, mx with
    | XR.fin a, XR.fin b =>
      let step := XR.max (XR.div (XR.fin 1) (XR.fin (steps : ℚ)))
        (XR.div (XR.fin (b - a)) (XR.fin (steps : ℚ)))
      match step with
      | XR.pinf =>
        let y := m.value a
        let num := XR.add (XR.fin 0) (XR.mul y (XR.fin a))
        let den := XR.add (XR.fin 0) y
        if den = XR.fin 0 then XR.fin ((a + b) / 2) else XR.div num den
      | XR.fin s =>
        if 0 < s then
          let acc := centroidLoop m s (centroidSteps a b s) a
            (XR.fin 0) (XR.fin 0)
          if acc.2 = XR.fin 0 then XR.fin ((a + b) / 2)
          else XR.div acc.1 acc.2
        else XR.fin 0
      | _ => XR.fin 0
    | mn, mx => XR.div (XR.add mn mx) (XR.fin 2)

/-- `NewEngine(defuzzify)`: default defuzzifier is `Centroid(1000)`. -/
def NewEngine (defuzzify : Option DefuzzifyFunc) : Engine :=
  { rules := [], vars := [], defuzzify := defuzzify.getD (Centroid 1000) }

/-- The running result stored for a (variable, term) pair. -/
def lookupResult (res : Results) (vname tname : String) : Option Result :=
  mapLookup ((mapLookup res vname).getD []) tname

theorem lookupResult_addResult (c : Context) (vname : String) (t : Term)
    (td : XR) :
    lookupResult (c.addResult vname t td).results vname t.name =
      some ((mapLookup ((mapLookup c.results vname).getD []) t.name).getD
          ⟨t.name, td, none⟩
        |> fun r =>
          ⟨r.term, XR.max r.truthDegree td,
            some (match r.membership with
              | some m => Membership.maxOf
                  [m, Membership.minOf [Membership.constant td, t.membership]]
              | none =>
                  Membership.minOf [Membership.constant td, t.membership])⟩) := by
  simp only [Context.addResult, lookupResult, mapLookup_mapInsert_self,
    Option.getD_some]

/-- C1: for every `Infer` call, rules are processed in declaration order
and, for each rule, the conclusion term's membership is clipped by the
premise's truth degree as `Min(Constant(truthDegree), term.Membership)`;
when a prior Result exists for the (variable, term) pair the merged
Result has membership `Max(existing.membership, clipped)` and truth
degree `max(existing.truthDegree, truthDegree)`; when no prior Result
exists the Result is the clipped membership with that truth degree. -/
theorem infer_clip_merge_spec :
    (∀ (e : Engine) (r : Rule) (rs : List Rule) (ctx : Context)
        (v : Variable) (t : Term) (td : XR),
      ctx.getVariable r.conclusion.varName = .ok v →
      v.term r.conclusion.termName = .ok t →
      r.premise.value ctx = .ok td →
      inferLoop (r :: rs) ctx e =
        inferLoop rs (ctx.addResult r.conclusion.varName t td) e) ∧
    (∀ (ctx : Context) (vname : String) (t : Term) (td : XR)
        (r0 : Result) (m0 : Membership),
      lookupResult ctx.results vname t.name = some r0 →
      r0.membership = some m0 →
      lookupResult (ctx.addResult vname t td).results vname t.name =
        some ⟨r0.term, XR.max r0.truthDegree td,
          some (Membership.maxOf
            [m0, Membership.minOf
              [Membership.constant td, t.membership]])⟩) ∧
    (∀ (ctx : Context) (vname : String) (t : Term) (td : XR),
      lookupResult ctx.results vname t.name = none →
      lookupResult (ctx.addResult vname t td).results vname t.name =
        some ⟨t.name, td,
          some (Membership.minOf
            [Membership.constant td, t.membership])⟩) := by
  refine ⟨?_, ?_, ?_⟩
  · intro e r rs ctx v t td hv ht hp
    simp only [inferLoop, hv, ht, hp]
  · intro ctx vname t td r0 m0 h0 hm
    rw [lookupResult_addResult]
    simp only [lookupResult] at h0
    simp [h0, hm]
  · intro ctx vname t td h0
    rw [lookupResult_addResult]
    simp only [lookupResult] at h0
    simp [h0, XR.max_self]

/-- Witness for `infer_clip_merge_spec` at concrete inputs: one rule
whose premise evaluates, a fresh (variable, term) pair, then a merge
into the existing result. -/
theorem infer_clip_merge_spec_witness :
    (let t : Term := ⟨"hot", Membership.linear 20 30⟩
     let v : Variable := ⟨"temp", [("hot", t)], XR.fin 20, XR.fin 30⟩
     let ctx : Context := ⟨[("temp", v)], [("temp", 25)], []⟩
     let r : Rule := ⟨Expr.is "temp" "hot", ⟨"temp", "hot"⟩⟩
     let e : Engine := ⟨[r], [v], Centroid 1000⟩
     inferLoop [r] ctx e =
       inferLoop [] (ctx.addResult "temp" t (XR.fin (1 / 2))) e) ∧
    (let t : Term := ⟨"hot", Membership.linear 20 30⟩
     let ctx : Context := ⟨[], [], []⟩
     lookupResult (ctx.addResult "temp" t (XR.fin (1 / 2))).results
         "temp" "hot" =
       some ⟨"hot", XR.fin (1 / 2),
         some (Membership.minOf
           [Membership.constant (XR.fin (1 / 2)),
            Membership.linear 20 30])⟩) ∧
    (let t : Term := ⟨"hot", Membership.linear 20 30⟩
     let prior : Result := ⟨"hot", XR.fin (1 / 4),
       some (Membership.constant (XR.fin (1 / 4)))⟩
     let ctx : Context := ⟨[], [], [("temp", [("hot", prior)])]⟩
     lookupResult (ctx.addResult "temp" t (XR.fin (1 / 2))).results
         "temp" "hot" =
       some ⟨"hot", XR.max (XR.fin (1 / 4)) (XR.fin (1 / 2)),
         some (Membership.maxOf
           [Membership.constant (XR.fin (1 / 4)),
            Membership.minOf
              [Membership.constant (XR.fin (1 / 2)),
               Membership.linear 20 30]])⟩) := by
  refine ⟨?_, ?_, ?_⟩
  · exact infer_clip_merge_spec.1 _ _ [] _ _ ⟨"hot", Membership.linear 20 30⟩
      (XR.fin (1 / 2)) rfl rfl (by norm_num [Expr.value, Context.getVariable,
        Context.value, mapLookup, Variable.term, Membership.value, XR.div])
  · exact infer_clip_merge_spec.2.2 _ "temp" ⟨"hot", Membership.linear 20 30⟩
      (XR.fin (1 / 2)) rfl
  · exact infer_clip_merge_spec.2.1 _ "temp" ⟨"hot", Membership.linear 20 30⟩
      (XR.fin (1 / 2)) ⟨"hot", XR.fin (1 / 4),
        some (Membership.constant (XR.fin (1 / 4)))⟩ _ rfl rfl

theorem inferLoop_engine_frame (rs : List Rule) (ctx : Context)
    (e : Engine) : (inferLoop rs ctx e).2 = e := by
  induction rs generalizing ctx with
  | nil => rfl
  | cons r rest ih =>
    cases hv : ctx.getVariable r.conclusion.varName with
    | error err => simp [inferLoop, hv]
    | ok v =>
      cases ht : v.term r.conclusion.termName with
      | error err => simp [inferLoop, hv, ht]
      | ok t =>
        cases hp : r.premise.value ctx with
        | error err => simp [inferLoop, hv, ht, hp]
        | ok td => simp [inferLoop, hv, ht, hp, ih]

/-- C10: `Engine.Infer` leaves every field of the engine (rules,
variables, defuzzify function) unchanged — all mutable state lives in
the per-call context — so a second `Infer` call with the same inputs
observes the same engine and produces the same results. -/
theorem infer_engine_frame (e : Engine) (values : Values) :
    (e.infer values).2 = e ∧
      ((e.infer values).2.infer values).1 = (e.infer values).1 := by
  have h2 : (e.infer values).2 = e := by
    unfold Engine.infer
    cases NewContext e.vars values with
    | error err => rfl
    | ok ctx =>
      have h := inferLoop_engine_frame e.rules ctx e
      simp only
      cases hl : inferLoop e.rules ctx e with
      | mk res e2 =>
        cases res <;> simpa [hl] using h
  exact ⟨h2, by rw [h2]⟩

/-- C4: `Engine.Defuzzify(variableName, results)` returns a fatal
`UndefinedVariable` error when the engine has no variable of that name;
when the variable exists but `results` has no entry (or an empty entry)
for it, the call returns exactly the universe midpoint
`(UniverseMin+UniverseMax)/2` and does not invoke the pluggable
defuzzify function (the result is the same for every choice of that
function). -/
theorem defuzzify_midpoint_spec (e : Engine) (name : String)
    (results : Results) :
    (findVariable e.vars name = none →
      e.defuzzifyVariable name results = .error .undefinedVariable) ∧
    (∀ v : Variable, findVariable e.vars name = some v →
      (mapLookup results name = none ∨ mapLookup results name = some []) →
      e.defuzzifyVariable name results =
        .ok (XR.div (XR.add v.universeMin v.universeMax) (XR.fin 2)) ∧
      ∀ f : DefuzzifyFunc,
        Engine.defuzzifyVariable { e with defuzzify := f } name results =
          e.defuzzifyVariable name results) := by
  constructor
  · intro h
    simp [Engine.defuzzifyVariable, h]
  · intro v hv hres
    cases hres with
    | inl h => exact ⟨by simp [Engine.defuzzifyVariable, hv, h],
        fun f => by simp [Engine.defuzzifyVariable, hv, h]⟩
    | inr h => exact ⟨by simp [Engine.defuzzifyVariable, hv, h],
        fun f => by simp [Engine.defuzzifyVariable, hv, h]⟩

/-- Witness for `defuzzify_midpoint_spec`: a one-variable engine with
universe [0, 10]; an unknown name errors, the known name with empty
results yields the midpoint 5 independently of the plugged function. -/
theorem defuzzify_midpoint_spec_witness :
    (let v : Variable := ⟨"speed", [], XR.fin 0, XR.fin 10⟩
     let e : Engine := ⟨[], [v], Centroid 1000⟩
     e.defuzzifyVariable "missing" [] = .error .undefinedVariable ∧
     e.defuzzifyVariable "speed" [] = .ok (XR.fin 5) ∧
     Engine.defuzzifyVariable { e with defuzzify := Centroid 7 } "speed" [] =
       e.defuzzifyVariable "speed" []) := by
  refine ⟨(defuzzify_midpoint_spec _ "missing" []).1 rfl, ?_, ?_⟩
  · have h := ((defuzzify_midpoint_spec
      ⟨[], [⟨"speed", [], XR.fin 0, XR.fin 10⟩], Centroid 1000⟩
      "speed" []).2 ⟨"speed", [], XR.fin 0, XR.fin 10⟩ rfl (Or.inl rfl)).1
    simpa [XR.div, XR.add, show (10 : ℚ) / 2 = 5 by norm_num] using h
  · exact ((defuzzify_midpoint_spec
      ⟨[], [⟨"speed", [], XR.fin 0, XR.fin 10⟩], Centroid 1000⟩
      "speed" []).2 ⟨"speed", [], XR.fin 0, XR.fin 10⟩ rfl
      (Or.inl rfl)).2 (Centroid 7)

theorem xr_ble_refl (a : XR) (ha : a ≠ XR.nan) : XR.ble a a = true := by
  cases a <;> simp_all [XR.ble]

theorem xr_min_choice (a b : XR) (ha : a ≠ XR.nan) (hb : b ≠ XR.nan) :
    XR.min a b = a ∨ XR.min a b = b := by
  cases a <;> cases b <;> simp_all [XR.min]
  exact le_total _ _

theorem xr_max_choice (a b : XR) (ha : a ≠ XR.nan) (hb : b ≠ XR.nan) :
    XR.max a b = a ∨ XR.max a b = b := by
  cases a <;> cases b <;> simp_all [XR.max]
  exact le_total _ _

theorem xr_min_ne_nan (a b : XR) (ha : a ≠ XR.nan) (hb : b ≠ XR.nan) :
    XR.min a b ≠ XR.nan := by
  rcases xr_min_choice a b ha hb with h | h <;> simp [h, ha, hb]

theorem xr_max_ne_nan (a b : XR) (ha : a ≠ XR.nan) (hb : b ≠ XR.nan) :
    XR.max a b ≠ XR.nan := by
  rcases xr_max_choice a b ha hb with h | h <;> simp [h, ha, hb]

theorem xr_ble_min_left (a b : XR) (ha : a ≠ XR.nan) (hb : b ≠ XR.nan) :
    XR.ble (XR.min a b) a = true := by
  cases a <;> cases b <;> simp_all [XR.min, XR.ble]

theorem xr_ble_min_right (a b : XR) (ha : a ≠ XR.nan) (hb : b ≠ XR.nan) :
    XR.ble (XR.min a b) b = true := by
  cases a <;> cases b <;> simp_all [XR.min, XR.ble]

theorem xr_ble_max_left (a b : XR) (ha : a ≠ XR.nan) (hb : b ≠ XR.nan) :
    XR.ble a (XR.max a b) = true := by
  cases a <;> cases b <;> simp_all [XR.max, XR.ble]

theorem xr_ble_max_right (a b : XR) (ha : a ≠ XR.nan) (hb : b ≠ XR.nan) :
    XR.ble b (XR.max a b) = true := by
  cases a <;> cases b <;> simp_all [XR.max, XR.ble]

theorem xr_ble_trans (a b c : XR) (hab : XR.ble a b = true)
    (hbc : XR.ble b c = true) : XR.ble a c = true := by
  cases a <;> cases b <;> cases c <;> simp_all [XR.ble]
  exact le_trans hab hbc

theorem foldl_min_ble (l : List XR) (a : XR) (hl : XR.nan ∉ l)
    (ha : a ≠ XR.nan) :
    XR.ble (l.foldl XR.min a) a = true ∧
      ∀ w ∈ l, XR.ble (l.foldl XR.min a) w = true := by
  induction l generalizing a with
  | nil => exact ⟨by simpa using xr_ble_refl a ha, by simp⟩
  | cons b t ih =>
    have hb : b ≠ XR.nan := fun h => hl (h ▸ List.mem_cons_self b t)
    have ht : XR.nan ∉ t := fun h => hl (List.mem_cons_of_mem b h)
    have hmin := xr_min_ne_nan a b ha hb
    obtain ⟨h1, h2⟩ := ih (XR.min a b) ht hmin
    refine ⟨xr_ble_trans _ _ _ h1 (xr_ble_min_left a b ha hb), ?_⟩
    intro w hw
    rcases List.mem_cons.mp hw with rfl | hw
    · exact xr_ble_trans _ _ _ h1 (xr_ble_min_right a w ha hb)
    · exact h2 w hw

theorem foldl_max_ble (l : List XR) (a : XR) (hl : XR.nan ∉ l)
    (ha : a ≠ XR.nan) :
    XR.ble a (l.foldl XR.max a) = true ∧
      ∀ w ∈ l, XR.ble w (l.foldl XR.max a) = true := by
  induction l generalizing a with
  | nil => exact ⟨by simpa using xr_ble_refl a ha, by simp⟩
  | cons b t ih =>
    have hb : b ≠ XR.nan := fun h => hl (h ▸ List.mem_cons_self b t)
    have ht : XR.nan ∉ t := fun h => hl (List.mem_cons_of_mem b h)
    have hmax := xr_max_ne_nan a b ha hb
    obtain ⟨h1, h2⟩ := ih (XR.max a b) ht hmax
    refine ⟨xr_ble_trans _ _ _ (xr_ble_max_left a b ha hb) h1, ?_⟩
    intro w hw
    rcases List.mem_cons.mp hw with rfl | hw
    · exact xr_ble_trans _ _ _ (xr_ble_max_right a w ha hb) h1
    · exact h2 w hw

theorem foldl_min_mem (l : List XR) (a : XR) (hl : XR.nan ∉ l)
    (ha : a ≠ XR.nan) :
    l.foldl XR.min a = a ∨ l.foldl XR.min a ∈ l := by
  induction l generalizing a with
  | nil => simp
  | cons b t ih =>
    have hb : b ≠ XR.nan := fun h => hl (h ▸ List.mem_cons_self b t)
    have ht : XR.nan ∉ t := fun h => hl (List.mem_cons_of_mem b h)
    rcases ih (XR.min a b) ht (xr_min_ne_nan a b ha hb) with h | h
    · rcases xr_min_choice a b ha hb with hc | hc
      · simp only [List.foldl_cons]
        rw [h, hc]
        exact Or.inl rfl
      · simp only [List.foldl_cons]
        rw [h, hc]
        exact Or.inr (List.mem_cons_self b t)
    · exact Or.inr (List.mem_cons_of_mem b (by simpa using h))

theorem foldl_max_mem (l : List XR) (a : XR) (hl : XR.nan ∉ l)
    (ha : a ≠ XR.nan) :
    l.foldl XR.max a = a ∨ l.foldl XR.max a ∈ l := by
  induction l generalizing a with
  | nil => simp
  | cons b t ih =>
    have hb : b ≠ XR.nan := fun h => hl (h ▸ List.mem_cons_self b t)
    have ht : XR.nan ∉ t := fun h => hl (List.mem_cons_of_mem b h)
    rcases ih (XR.max a b) ht (xr_max_ne_nan a b ha hb) with h | h
    · rcases xr_max_choice a b ha hb with hc | hc
      · simp only [List.foldl_cons]
        rw [h, hc]
        exact Or.inl rfl
      · simp only [List.foldl_cons]
        rw [h, hc]
        exact Or.inr (List.mem_cons_self b t)
    · exact Or.inr (List.mem_cons_of_mem b (by simpa using h))

/-- Child-by-child evaluation of an expression list, stopping at the
first error: the value stream the And/Or loops consume. -/
def evalList : List Expr → Context → Except Err (List XR)
  | [], _ => .ok []
  | e :: rest, ctx =>
    match e.value ctx with
    | .error err => .error err
    | .ok v =>
      match evalList rest ctx with
      | .error err => .error err
      | .ok vs => .ok (v :: vs)

theorem andLoop_eq_evalList (es : List Expr) (ctx : Context) (acc : XR) :
    Expr.andLoop es ctx acc =
      match evalList es ctx with
      | .error err => .error err
      | .ok vs => .ok (vs.foldl XR.min acc) := by
  induction es generalizing acc with
  | nil => rfl
  | cons e rest ih =>
    cases hv : e.value ctx with
    | error err => simp [Expr.andLoop, evalList, hv]
    | ok v =>
      rw [Expr.andLoop, evalList]
      simp only [hv, ih]
      cases evalList rest ctx <;> rfl

theorem orLoop_eq_evalList (es : List Expr) (ctx : Context) (acc : XR) :
    Expr.orLoop es ctx acc =
      match evalList es ctx with
      | .error err => .error err
      | .ok vs => .ok (vs.foldl XR.max acc) := by
  induction es generalizing acc with
  | nil => rfl
  | cons e rest ih =>
    cases hv : e.value ctx with
    | error err => simp [Expr.orLoop, evalList, hv]
    | ok v =>
      rw [Expr.orLoop, evalList]
      simp only [hv, ih]
      cases evalList rest ctx <;> rfl

theorem evalList_append_error (pre : List Expr) (e : Expr)
    (post : List Expr) (ctx : Context) (err : Err) (vs : List XR)
    (hpre : evalList pre ctx = .ok vs) (he : e.value ctx = .error err) :
    evalList (pre ++ e :: post) ctx = .error err := by
  induction pre generalizing vs with
  | nil => simp [evalList, he]
  | cons p t ih =>
    rw [evalList] at hpre
    cases hp : p.value ctx with
    | error err2 => rw [hp] at hpre; exact absurd hpre (by simp)
    | ok v =>
      rw [hp] at hpre
      cases hts : evalList t ctx with
      | error err2 => rw [hts] at hpre; exact absurd hpre (by simp)
      | ok ws =>
        simp only [List.cons_append, evalList, hp, List.append_eq,
          ih ws hts]

/-- C5: with a non-empty child list and error-free children, `And.Value`
is the fold of the children's values with min seeded at +Inf — hence the
minimum child value — and `Or.Value` the fold with max seeded at -Inf;
`Not.Value` is one minus the child value; any child error (the first
one) propagates immediately with no aggregated value. -/
theorem expr_value_spec :
    (∀ (es : List Expr) (ctx : Context) (vs : List XR),
      evalList es ctx = .ok vs →
      (Expr.and es).value ctx = .ok (vs.foldl XR.min XR.pinf) ∧
      (Expr.or es).value ctx = .ok (vs.foldl XR.max XR.ninf)) ∧
    (∀ (v : XR) (rest : List XR),
      (v :: rest).foldl XR.min XR.pinf = rest.foldl XR.min v ∧
      (v :: rest).foldl XR.max XR.ninf = rest.foldl XR.max v) ∧
    (∀ (vs : List XR), vs ≠ [] → XR.nan ∉ vs →
      (vs.foldl XR.min XR.pinf ∈ vs ∧
        ∀ w ∈ vs, XR.ble (vs.foldl XR.min XR.pinf) w = true) ∧
      (vs.foldl XR.max XR.ninf ∈ vs ∧
        ∀ w ∈ vs, XR.ble w (vs.foldl XR.max XR.ninf) = true)) ∧
    (∀ (e : Expr) (ctx : Context) (v : XR),
      e.value ctx = .ok v →
      (Expr.not e).value ctx = .ok (XR.oneSub v)) ∧
    (∀ (pre : List Expr) (e : Expr) (post : List Expr) (ctx : Context)
        (err : Err) (vs : List XR),
      evalList pre ctx = .ok vs → e.value ctx = .error err →
      (Expr.and (pre ++ e :: post)).value ctx = .error err ∧
      (Expr.or (pre ++ e :: post)).value ctx = .error err ∧
      (Expr.not e).value ctx = .error err) := by
  refine ⟨?_, ?_, ?_, ?_, ?_⟩
  · intro es ctx vs h
    constructor
    · rw [Expr.value, andLoop_eq_evalList, h]
    · rw [Expr.value, orLoop_eq_evalList, h]
  · intro v rest
    constructor
    · simp [XR.min_pinf_left]
    · simp [XR.max_ninf_left]
  · intro vs hne hnan
    cases vs with
    | nil => exact absurd rfl hne
    | cons v rest =>
      have hv : v ≠ XR.nan := fun h => hnan (h ▸ List.mem_cons_self v rest)
      have hrest : XR.nan ∉ rest := fun h => hnan (List.mem_cons_of_mem v h)
      constructor
      · constructor
        · simp only [List.foldl_cons, XR.min_pinf_left]
          rcases foldl_min_mem rest v hrest hv with h | h
          · exact List.mem_cons.mpr (Or.inl h)
          · exact List.mem_cons_of_mem v h
        · intro w hw
          simp only [List.foldl_cons, XR.min_pinf_left]
          obtain ⟨h1, h2⟩ := foldl_min_ble rest v hrest hv
          rcases List.mem_cons.mp hw with rfl | hw
          · exact h1
          · exact h2 w hw
      · constructor
        · simp only [List.foldl_cons, XR.max_ninf_left]
          rcases foldl_max_mem rest v hrest hv with h | h
          · exact List.mem_cons.mpr (Or.inl h)
          · exact List.mem_cons_of_mem v h
        · intro w hw
          simp only [List.foldl_cons, XR.max_ninf_left]
          obtain ⟨h1, h2⟩ := foldl_max_ble rest v hrest hv
          rcases List.mem_cons.mp hw with rfl | hw
          · exact h1
          · exact h2 w hw
  · intro e ctx v h
    simp [Expr.value, h]
  · intro pre e post ctx err vs hpre he
    have hlist := evalList_append_error pre e post ctx err vs hpre he
    refine ⟨?_, ?_, by simp [Expr.value, he]⟩
    · rw [Expr.value, andLoop_eq_evalList, hlist]
    · rw [Expr.value, orLoop_eq_evalList, hlist]

/-- A concrete context for `expr_value_spec_witness`: one variable with
terms `h` (degree 1/2 at input 5) and `c` (constant 1/4). -/
def exprWitnessCtx : Context :=
  ⟨[("t", ⟨"t",
      [("h", ⟨"h", Membership.linear 0 10⟩),
       ("c", ⟨"c", Membership.constant (XR.fin (1 / 4))⟩)],
      XR.fin 0, XR.fin 10⟩)],
   [("t", 5)], []⟩

/-- Witness for `expr_value_spec` at concrete inputs: And gives the
minimum 1/4, Or the maximum 1/2, Not gives 1 - 1/2, and an undefined
term in the second child propagates its error. -/
theorem expr_value_spec_witness :
    (Expr.and [Expr.is "t" "h", Expr.is "t" "c"]).value exprWitnessCtx =
      .ok (XR.fin (1 / 4)) ∧
    (Expr.or [Expr.is "t" "h", Expr.is "t" "c"]).value exprWitnessCtx =
      .ok (XR.fin (1 / 2)) ∧
    (XR.fin (1 / 4) ∈ ([XR.fin (1 / 2), XR.fin (1 / 4)] : List XR) ∧
      ∀ w ∈ ([XR.fin (1 / 2), XR.fin (1 / 4)] : List XR),
        XR.ble (XR.fin (1 / 4)) w = true) ∧
    (Expr.not (Expr.is "t" "h")).value exprWitnessCtx =
      .ok (XR.fin (1 / 2)) ∧
    (Expr.and [Expr.is "t" "h", Expr.is "t" "zzz"]).value exprWitnessCtx =
      .error .undefinedTerm := by
  have hmin : (([XR.fin (1 / 2), XR.fin (1 / 4)] : List XR).foldl
      XR.min XR.pinf) = XR.fin (1 / 4) := by decide
  have hmax : (([XR.fin (1 / 2), XR.fin (1 / 4)] : List XR).foldl
      XR.max XR.ninf) = XR.fin (1 / 2) := by decide
  have h1 := expr_value_spec.1 [Expr.is "t" "h", Expr.is "t" "c"]
    exprWitnessCtx [XR.fin (1 / 2), XR.fin (1 / 4)] rfl
  have h3 := (expr_value_spec.2.2.1 [XR.fin (1 / 2), XR.fin (1 / 4)]
    (by simp) (by decide)).1
  have h4 := expr_value_spec.2.2.2.1 (Expr.is "t" "h") exprWitnessCtx
    (XR.fin (1 / 2)) (by decide)
  have h5 := (expr_value_spec.2.2.2.2 [Expr.is "t" "h"] (Expr.is "t" "zzz")
    [] exprWitnessCtx .undefinedTerm [XR.fin (1 / 2)] (by decide)
    (by decide)).1
  refine ⟨?_, ?_, ?_, ?_, h5⟩
  · rw [← hmin]
    exact h1.1
  · rw [← hmax]
    exact h1.2
  · rw [← hmin]
    exact h3
  · have : XR.oneSub (XR.fin (1 / 2)) = XR.fin (1 / 2) := by decide
    rw [← this]
    exact h4

theorem centroidLoop_eq_sum (m : Membership) (s : ℚ) :
    ∀ (n : ℕ) (x num0 den0 : ℚ) (y : ℕ → ℚ),
      (∀ i < n, m.value (x + i * s) = XR.fin (y i)) →
      centroidLoop m s n x (XR.fin num0) (XR.fin den0) =
        (XR.fin (num0 + ∑ i in Finset.range n, y i * (x + i * s)),
         XR.fin (den0 + ∑ i in Finset.range n, y i)) := by
  intro n
  induction n with
  | zero =>
    intro x num0 den0 y _
    simp [centroidLoop]
  | succ k ih =>
    intro x num0 den0 y hy
    have h0 : m.value x = XR.fin (y 0) := by
      have h := hy 0 (Nat.succ_pos k)
      simpa using h
    have hrest : ∀ i < k, m.value ((x + s) + i * s) = XR.fin (y (i + 1)) := by
      intro i hi
      have h := hy (i + 1) (Nat.succ_lt_succ hi)
      have harg : x + (((i : ℕ) + 1 : ℕ) : ℚ) * s = (x + s) + (i : ℚ) * s := by
        push_cast
        ring
      rw [harg] at h
      exact h
    rw [centroidLoop]
    simp only [h0, XR.mul, XR.add]
    rw [ih (x + s) (num0 + y 0 * x) (den0 + y 0) (fun i => y (i + 1)) hrest]
    rw [Finset.sum_range_succ' (fun i => y i * (x + (i : ℚ) * s)) k,
      Finset.sum_range_succ' (fun i => y i) k]
    have hsum : ∑ i in Finset.range k, y (i + 1) * (x + s + (i : ℚ) * s) =
        ∑ i in Finset.range k, y (i + 1) * (x + (((i : ℕ) + 1 : ℕ) : ℚ) * s) := by
      refine Finset.sum_congr rfl fun i _ => ?_
      push_cast
      ring
    simp only [Prod.mk.injEq, XR.fin.injEq]
    rw [hsum]
    constructor
    · push_cast
      ring
    · ring

/-- C3 (amended): `Centroid(steps)` accumulates `Σ y·x` and `Σ y` over
the samples `x = min + i·step`, `i = 0 .. ⌊(max-min)/step⌋`, with
`step = max(1/steps, (max-min)/steps)`, and returns `Σ(y·x)/Σy`, or the
universe midpoint `(min+max)/2` when the accumulated denominator is
zero; but for an unbounded or degenerate universe (`min >= max`) it
returns 0, not the midpoint. -/
theorem centroid_riemann_spec (steps : ℤ) (m : Membership) (a b : ℚ)
    (y : ℕ → ℚ) (hsteps : 1 ≤ steps) (hab : a < b)
    (hy : ∀ i < centroidSteps a b
        (Max.max (1 / (steps : ℚ)) ((b - a) / (steps : ℚ))),
      m.value (a + i * Max.max (1 / (steps : ℚ)) ((b - a) / (steps : ℚ))) =
        XR.fin (y i)) :
    Centroid steps m (XR.fin a) (XR.fin b) =
      (if (∑ i in Finset.range (centroidSteps a b
            (Max.max (1 / (steps : ℚ)) ((b - a) / (steps : ℚ)))), y i) = 0
       then XR.fin ((a + b) / 2)
       else XR.fin ((∑ i in Finset.range (centroidSteps a b
            (Max.max (1 / (steps : ℚ)) ((b - a) / (steps : ℚ)))),
              y i * (a + i * Max.max (1 / (steps : ℚ))
                ((b - a) / (steps : ℚ)))) /
          (∑ i in Finset.range (centroidSteps a b
            (Max.max (1 / (steps : ℚ)) ((b - a) / (steps : ℚ)))), y i))) := by
  simp only [one_div] at hy ⊢
  have hstepsQ : (0 : ℚ) < (steps : ℚ) := by
    exact_mod_cast lt_of_lt_of_le zero_lt_one hsteps
  have hsne : (steps : ℚ) ≠ 0 := ne_of_gt hstepsQ
  have hspos : 0 < Max.max ((steps : ℚ)⁻¹) ((b - a) / (steps : ℚ)) :=
    lt_of_lt_of_le (inv_pos.mpr hstepsQ) (le_max_left _ _)
  have hguard : ((XR.fin a).isInf || (XR.fin b).isInf ||
      XR.ble (XR.fin b) (XR.fin a)) = false := by
    simp [XR.isInf, XR.ble, not_le.mpr hab]
  have hstep : XR.max (XR.div (XR.fin 1) (XR.fin (steps : ℚ)))
      (XR.div (XR.fin (b - a)) (XR.fin (steps : ℚ))) =
      XR.fin (Max.max ((steps : ℚ)⁻¹) ((b - a) / (steps : ℚ))) := by
    simp [XR.div, hsne, XR.max]
  have hloop := centroidLoop_eq_sum m
    (Max.max ((steps : ℚ)⁻¹) ((b - a) / (steps : ℚ)))
    (centroidSteps a b (Max.max ((steps : ℚ)⁻¹) ((b - a) / (steps : ℚ))))
    a 0 0 y hy
  simp only [Centroid, hguard, Bool.false_eq_true, if_false, hstep, hspos,
    if_true, hloop, zero_add]
  by_cases hden : (∑ i in Finset.range (centroidSteps a b
      (Max.max ((steps : ℚ)⁻¹) ((b - a) / (steps : ℚ)))), y i) = 0
  · simp [hden]
  · simp [hden, XR.div]

/-- Witness for `centroid_riemann_spec`: Centroid(2) of
Triangular(0,1,2) over [0,2] has step 1, samples y = 0,1,0 at x = 0,1,2,
and returns 1/1 = 1. -/
theorem centroid_riemann_spec_witness :
    Centroid 2 (Membership.triangular 0 1 2) (XR.fin 0) (XR.fin 2) =
      XR.fin 1 := by
  have h := centroid_riemann_spec 2 (Membership.triangular 0 1 2) 0 2
    (fun i => if i = 1 then 1 else 0) (by decide) (by norm_num)
    (by decide)
  have hn : centroidSteps 0 2 (1 / ((2 : ℤ) : ℚ) ⊔ (2 - 0) / ((2 : ℤ) : ℚ)) =
      3 := by decide
  rw [h, hn]
  norm_num [Finset.sum_range_succ]

/-- C3 counterexample: on a degenerate universe (min = max = 4) the
Centroid defuzzifier returns 0, not the universe midpoint 4 claimed by
the spec; an unbounded universe likewise returns 0. -/
theorem centroid_degenerate_not_midpoint :
    Centroid 10 (Membership.triangular 0 1 2) (XR.fin 4) (XR.fin 4) =
      XR.fin 0 ∧
    Centroid 10 (Membership.triangular 0 1 2) XR.ninf (XR.fin 4) =
      XR.fin 0 ∧
    XR.fin ((4 + 4 : ℚ) / 2) = XR.fin 4 ∧
    (XR.fin 0 : XR) ≠ XR.fin 4 := by
  refine ⟨by decide, by decide, by decide, by decide⟩

theorem xr_div_fin (a b : ℚ) (hb : b ≠ 0) :
    XR.div (XR.fin a) (XR.fin b) = XR.fin (a / b) := by
  simp [XR.div, hb]

theorem value_triangular_left (x1 x2 x3 x : ℚ) (h12 : x1 < x2)
    (h23 : x2 < x3) (hx : x1 ≤ x) (hx2 : x ≤ x2) :
    Membership.value (Membership.triangular x1 x2 x3) x =
      XR.fin ((x - x1) / (x2 - x1)) := by
  have hd : x2 - x1 ≠ 0 := ne_of_gt (sub_pos.mpr h12)
  rcases eq_or_lt_of_le hx with heq | hlt
  · rw [← heq]
    have hnle : ¬(x2 ≤ x1) := not_le.mpr h12
    simp [Membership.value, lt_irrefl, hnle, sub_self, zero_div]
  · rcases eq_or_lt_of_le hx2 with heq2 | hlt2
    · subst heq2
      have he : x3 - x ≠ 0 := ne_of_gt (sub_pos.mpr h23)
      simp [Membership.value, lt_irrefl, le_of_lt h23, xr_div_fin _ _ he,
        div_self he, div_self hd]
    · simp [Membership.value, hlt, hlt2, xr_div_fin _ _ hd]

theorem value_triangular_right (x1 x2 x3 x : ℚ) (h23 : x2 < x3)
    (hx : x2 ≤ x) (hx3 : x ≤ x3) :
    Membership.value (Membership.triangular x1 x2 x3) x =
      XR.fin ((x3 - x) / (x3 - x2)) := by
  have he : x3 - x2 ≠ 0 := ne_of_gt (sub_pos.mpr h23)
  have h1 : ¬(x1 < x ∧ x < x2) := fun h => absurd h.2 (not_lt.mpr hx)
  simp [Membership.value, h1, hx, hx3, xr_div_fin _ _ he]

/-- C8 (amended): for non-degenerate Triangular(x1,x2,x3) with
x1 < x2 < x3, Value(x1) = 0, Value(x2) = 1, Value(x3) = 0, and Value is
monotonically increasing on [x1,x2] and monotonically decreasing on
[x2,x3].  (The degenerate cases are excluded: with x1 = x2 the code
returns 1 at x1, and with x2 = x3 it divides by zero at x2.) -/
theorem triangular_shape_spec (x1 x2 x3 : ℚ) (h12 : x1 < x2)
    (h23 : x2 < x3) :
    Membership.value (Membership.triangular x1 x2 x3) x1 = XR.fin 0 ∧
    Membership.value (Membership.triangular x1 x2 x3) x2 = XR.fin 1 ∧
    Membership.value (Membership.triangular x1 x2 x3) x3 = XR.fin 0 ∧
    (∀ u v : ℚ, x1 ≤ u → u ≤ v → v ≤ x2 →
      XR.ble (Membership.value (Membership.triangular x1 x2 x3) u)
        (Membership.value (Membership.triangular x1 x2 x3) v) = true) ∧
    (∀ u v : ℚ, x2 ≤ u → u ≤ v → v ≤ x3 →
      XR.ble (Membership.value (Membership.triangular x1 x2 x3) v)
        (Membership.value (Membership.triangular x1 x2 x3) u) = true) := by
  have hd : (0 : ℚ) < x2 - x1 := sub_pos.mpr h12
  have he : (0 : ℚ) < x3 - x2 := sub_pos.mpr h23
  refine ⟨?_, ?_, ?_, ?_, ?_⟩
  · rw [value_triangular_left x1 x2 x3 x1 h12 h23 le_rfl (le_of_lt h12)]
    simp
  · rw [value_triangular_left x1 x2 x3 x2 h12 h23 (le_of_lt h12) le_rfl]
    simp [div_self (ne_of_gt hd)]
  · rw [value_triangular_right x1 x2 x3 x3 h23 (le_of_lt h23) le_rfl]
    simp
  · intro u v hu huv hv
    rw [value_triangular_left x1 x2 x3 u h12 h23 hu (le_trans huv hv),
      value_triangular_left x1 x2 x3 v h12 h23 (le_trans hu huv) hv]
    simp only [XR.ble, decide_eq_true_eq]
    exact (div_le_div_iff_of_pos_right hd).mpr (by linarith)
  · intro u v hu huv hv
    rw [value_triangular_right x1 x2 x3 u h23 hu (le_trans huv hv),
      value_triangular_right x1 x2 x3 v h23 (le_trans hu huv) hv]
    simp only [XR.ble, decide_eq_true_eq]
    exact (div_le_div_iff_of_pos_right he).mpr (by linarith)

/-- Witness for `triangular_shape_spec` at Triangular(0,1,2): endpoint
values and a monotonicity sample. -/
theorem triangular_shape_spec_witness :
    Membership.value (Membership.triangular 0 1 2) 0 = XR.fin 0 ∧
    Membership.value (Membership.triangular 0 1 2) 1 = XR.fin 1 ∧
    Membership.value (Membership.triangular 0 1 2) 2 = XR.fin 0 ∧
    XR.ble (Membership.value (Membership.triangular 0 1 2) (1 / 4))
      (Membership.value (Membership.triangular 0 1 2) (1 / 2)) = true := by
  have h := triangular_shape_spec 0 1 2 (by norm_num) (by norm_num)
  exact ⟨h.1, h.2.1, h.2.2.1,
    h.2.2.2.1 (1 / 4) (1 / 2) (by norm_num) (by norm_num) (by norm_num)⟩

/-- C8 counterexample: the claim quantifies over all Triangular
memberships including degenerate ones, but Triangular(0,0,1) has
Value(x1) = Value(0) = 1, not 0. -/
theorem triangular_degenerate_endpoint :
    Membership.value (Membership.triangular 0 0 1) 0 = XR.fin 1 ∧
    XR.fin (1 : ℚ) ≠ XR.fin 0 := by
  exact ⟨by decide, by decide⟩

/-- The DSL token kinds (the Go source uses string constants; an enum is
the Lean rendering). -/
inductive TokenType where
  | tIF
  | tIS
  | tTHEN
  | tAND
  | tOR
  | tNOT
  | tSEMI
  | tVAR
  | tTERM
  | tLPAREN
  | tRPAREN
  | tDEFINE
  | tCOMMA
  | tLINEAR
  | tTRIANGULAR
  | tTRAPEZOID
  | tINVERTED
  deriving DecidableEq, Repr

/-- A 1-based source position. -/
structure Position where
  line : ℕ
  column : ℕ
  deriving DecidableEq, Repr

/-- A lexed token. -/
structure Token where
  type : TokenType
  value : String
  pos : Position
  deriving DecidableEq, Repr

/-- The scanner state of `removeComments`: normal code, inside a
`/*...*/` block comment (Go's `inMultilineComment` flag), or inside a
`//` comment with `n` characters consumed so far (the Go code looks
ahead with `strings.IndexByte` and replaces those characters with
spaces only when a newline terminates the comment; a `//` comment that
reaches end of input emits a single newline instead). -/
inductive ScanState where
  | code : ScanState
  | block : ScanState
  | line (n : ℕ) : ScanState
  deriving DecidableEq, Repr

/-- The comment-removal scanner of `removeComments`, transcribed as a
state machine over the character list.  In code state, `//` enters the
line state and `/*` (one space emitted) enters the block state; in the
block state newlines are kept, `*/` emits one space and returns to code
state, and every other character becomes a space; in the line state the
pending characters become spaces when the terminating newline arrives,
or a single newline is emitted at end of input. -/
def removeCommentsAux : ScanState → List Char → List Char
  | .block, '*' :: '/' :: rest => ' ' :: removeCommentsAux .code rest
  | .block, c :: rest =>
    (if c = '\n' then '\n' else ' ') :: removeCommentsAux .block rest
  | .block, [] => []
  | .line _, [] => ['\n']
  | .line n, c :: rest =>
    if c = '\n' then List.replicate n ' ' ++ '\n' :: removeCommentsAux .code rest
    else removeCommentsAux (.line (n + 1)) rest
  | .code, '/' :: '/' :: rest => removeCommentsAux (.line 2) rest
  | .code, '/' :: '*' :: rest => ' ' :: removeCommentsAux .block rest
  | .code, c :: rest => c :: removeCommentsAux .code rest
  | .code, [] => []

/-- `removeComments` on a source string. -/
def removeComments (s : String) : String :=
  ⟨removeCommentsAux .code s.data⟩

/-- `strings.Split(s, sep)` for a single-character separator. -/
def splitOnChar (sep : Char) : List Char → List (List Char)
  | [] => [[]]
  | c :: rest =>
    if c = sep then [] :: splitOnChar sep rest
    else
      match splitOnChar sep rest with
      | [] => [[c]]
      | l :: ls => (c :: l) :: ls

/-- Go `unicode.IsSpace` restricted to the ASCII range (the DSL inputs
are ASCII). -/
def isSpaceGo (c : Char) : Bool :=
  c = ' ' || c = '\t' || c = '\n' || c = '\x0b' || c = '\x0c' || c = '\r'

/-- `strings.ReplaceAll(line, string(sym), " " ++ string(sym) ++ " ")`
for a single-character pattern. -/
def padSymbol (sym : Char) : List Char → List Char
  | [] => []
  | c :: rest =>
    if c = sym then ' ' :: sym :: ' ' :: padSymbol sym rest
    else c :: padSymbol sym rest

/-- `strings.Fields`: split on whitespace runs, dropping empty words
(accumulator formulation of the same scan; `acc` holds the reversed
current word). -/
def fieldsAux : List Char → List Char → List (List Char)
  | [], acc => if acc.isEmpty then [] else [acc.reverse]
  | c :: rest, acc =>
    if isSpaceGo c then
      if acc.isEmpty then fieldsAux rest []
      else acc.reverse :: fieldsAux rest []
    else fieldsAux rest (c :: acc)

/-- `strings.Fields`. -/
def fieldsGo (l : List Char) : List (List Char) := fieldsAux l []

/-- Whether `pat` occurs at the head of `l`. -/
def matchesAt : List Char → List Char → Bool
  | [], _ => true
  | _ :: _, [] => false
  | p :: ps, c :: cs => p = c && matchesAt ps cs

/-- `strings.Index(l, pat)`: position of the first occurrence of the
substring, if any. -/
def indexOfSub : List Char → List Char → Option ℕ
  | l, pat =>
    match l with
    | [] => if matchesAt pat [] then some 0 else none
    | c :: rest =>
      if matchesAt pat (c :: rest) then some 0
      else (indexOfSub rest pat).map (· + 1)

/-- ASCII upper-casing of one character (`strings.ToUpper` on the DSL's
ASCII inputs). -/
def charUpper (c : Char) : Char :=
  if 'a' ≤ c && c ≤ 'z' then Char.ofNat (c.toNat - 32) else c

/-- Keyword classification of a word (case-insensitive); everything else
is a `VARIABLE` token. -/
def classify (w : List Char) : TokenType :=
  let u : String := ⟨w.map charUpper⟩
  if u = "IF" then .tIF
  else if u = "IS" then .tIS
  else if u = "THEN" then .tTHEN
  else if u = "AND" then .tAND
  else if u = "OR" then .tOR
  else if u = "NOT" then .tNOT
  else if u = "DEFINE" then .tDEFINE
  else if u = "TERM" then .tTERM
  else if u = "LINEAR" then .tLINEAR
  else if u = "TRIANGULAR" then .tTRIANGULAR
  else if u = "TRAPEZOID" then .tTRAPEZOID
  else if u = "INVERTED" then .tINVERTED
  else if u = "(" then .tLPAREN
  else if u = ")" then .tRPAREN
  else if u = ";" then .tSEMI
  else if u = "," then .tCOMMA
  else .tVAR

/-- Tokens of one (1-based) line: skip all-whitespace lines, pad the
`;`, `(`, `)`, `,` symbols with spaces, split into words, and give each
word the column of its first occurrence in the padded line (the Go code
recomputes `strings.Index` from the line start for every word, so
duplicate words share the first occurrence's column).  The `getD 0` is
unreachable: every word produced by Fields occurs in the line. -/
def lineTokens (lineNum : ℕ) (line : List Char) : List Token :=
  if line.all isSpaceGo then []
  else
    let padded := padSymbol ',' (padSymbol ')' (padSymbol '(' (padSymbol ';' line)))
    (fieldsGo padded).map fun w =>
      let col := ((indexOfSub padded w).getD 0) + 1
      { type := classify w, value := ⟨w⟩, pos := ⟨lineNum, col⟩ }

/-- `tokenize`: strip comments, split into lines, tokenize each line. -/
def tokenize (input : String) : List Token :=
  let cleaned := removeCommentsAux .code input.data
  ((splitOnChar '\n' cleaned).enum.map fun p =>
    lineTokens (p.1 + 1) p.2).flatten

/-- A positioned parse error (`ParseError`); the optional wrapped cause
only affects message rendering in the source and is folded into `msg`
here. -/
structure ParseError where
  msg : String
  pos : Position
  deriving DecidableEq, Repr

/-- `newParseError`. -/
def newParseError (msg : String) (pos : Position) : ParseError := ⟨msg, pos⟩

/-- `ParseError.Error()`: the rendered message. -/
def ParseError.render (e : ParseError) : String :=
  e.msg ++ " at line " ++ toString e.pos.line ++ ", column " ++
    toString e.pos.column

/-- The type of the token at a cursor, if in range: the Go pattern
`current < len(tokens) && tokens[current].Type == T` becomes
`tokenTypeAt tokens current = some T`. -/
def tokenTypeAt (tokens : List Token) (i : ℕ) : Option TokenType :=
  (tokens.get? i).map Token.type

/-- The error-position fallback the parser repeats: the current token's
position, else the previous token's, else line 1 column 1. -/
def errPosAt (tokens : List Token) (current : ℕ) : Position :=
  match tokens.get? current with
  | some t => t.pos
  | none =>
    match (if 0 < current then tokens.get? (current - 1) else none) with
    | some t => t.pos
    | none => ⟨1, 1⟩

/-- The position of `tokens[current-1]`, used by the membership parsers'
errors (the Go code indexes it directly; in range for every real
call, with line 1 column 1 as the out-of-range default here). -/
def prevPos (tokens : List Token) (i : ℕ) : Position :=
  ((tokens.get? (i - 1)).map Token.pos).getD ⟨1, 1⟩

/-- The numeric value of a digit string. -/
def digitsVal (l : List Char) : ℕ :=
  l.foldl (fun acc c => acc * 10 + (c.toNat - 48)) 0

/-- Modelled from the spec: numeric literals are parsed with standard
float syntax (`strconv.ParseFloat` is Go standard library, outside this
repository): optional sign, decimal mantissa with optional fraction,
optional exponent, valued exactly in ℚ (float64 rounding, hex floats
and Inf/NaN spellings are not modelled). -/
def parseFloatQ (s : List Char) : Option ℚ :=
  let sgnr : ℚ × List Char :=
    match s with
    | '+' :: r => (1, r)
    | '-' :: r => (-1, r)
    | r => (1, r)
  let ip := sgnr.2.takeWhile Char.isDigit
  let r2 := sgnr.2.dropWhile Char.isDigit
  let fpr : List Char × List Char :=
    match r2 with
    | '.' :: r => (r.takeWhile Char.isDigit, r.dropWhile Char.isDigit)
    | r => ([], r)
  if ip = [] ∧ fpr.1 = [] then none
  else
    let mant : ℚ := sgnr.1 *
      ((digitsVal ip : ℚ) + (digitsVal fpr.1 : ℚ) / (10 : ℚ) ^ fpr.1.length)
    match fpr.2 with
    | [] => some mant
    | e :: r4 =>
      if e = 'e' ∨ e = 'E' then
        let esr : ℤ × List Char :=
          match r4 with
          | '+' :: r => (1, r)
          | '-' :: r => (-1, r)
          | r => (1, r)
        let ed := esr.2.takeWhile Char.isDigit
        let r6 := esr.2.dropWhile Char.isDigit
        if ed = [] ∨ r6 ≠ [] then none
        else some (mant * (10 : ℚ) ^ (esr.1 * digitsVal ed))
      else none

/-- `parseFloat`: a malformed literal is a positioned parse error. -/
def parseFloat (s : String) (pos : Position) : Except ParseError ℚ :=
  match parseFloatQ s.data with
  | some q => .ok q
  | none => .error (newParseError ("invalid number: " ++ s) pos)

/-- `ParseLinear`: parse `LINEAR(x1, x2)`.  With x1 < x2 an ascending
`Linear(x1,x2)`; with x1 > x2 the descending ramp is rewritten as
`Inverted(Linear(x2,x1))`; with x1 = x2 a step (`Linear(x1,x1)`).
Returns the new cursor alongside, as the Go function does. -/
def ParseLinear (tokens : List Token) (current : ℕ) :
    Except ParseError Membership × ℕ :=
  if tokenTypeAt tokens current ≠ some .tLPAREN then
    (.error (newParseError "expected ( after LINEAR" (prevPos tokens current)),
     current)
  else
    match tokens.get? (current + 1) with
    | some t1 =>
      if t1.type ≠ .tVAR then
        (.error (newParseError "expected first parameter for LINEAR"
          (prevPos tokens (current + 1))), current + 1)
      else
        match parseFloat t1.value t1.pos with
        | .error e => (.error e, current + 1)
        | .ok x1 =>
          if tokenTypeAt tokens (current + 2) ≠ some .tCOMMA then
            (.error (newParseError "expected , between parameters"
              (prevPos tokens (current + 2))), current + 2)
          else
            match tokens.get? (current + 3) with
            | some t3 =>
              if t3.type ≠ .tVAR then
                (.error (newParseError "expected second parameter for LINEAR"
                  (prevPos tokens (current + 3))), current + 3)
              else
                match parseFloat t3.value t3.pos with
                | .error e => (.error e, current + 3)
                | .ok x2 =>
                  if tokenTypeAt tokens (current + 4) ≠ some .tRPAREN then
                    (.error (newParseError "expected ) after LINEAR parameters"
                      (prevPos tokens (current + 4))), current + 4)
                  else
                    (.ok (if x1 < x2 then Membership.linear x1 x2
                      else if x2 < x1 then
                        Membership.inverted (Membership.linear x2 x1)
                      else Membership.linear x1 x1), current + 5)
            | none =>
              (.error (newParseError "expected second parameter for LINEAR"
                (prevPos tokens (current + 3))), current + 3)
    | none =>
      (.error (newParseError "expected first parameter for LINEAR"
        (prevPos tokens (current + 1))), current + 1)

/-- One `num COMMA` parameter step shared by the Triangular/Trapezoid
transcriptions below (each Go parser repeats this block verbatim). -/
def parseParamComma (tokens : List Token) (current : ℕ) (what : String) :
    Except ParseError ℚ × ℕ :=
  match tokens.get? current with
  | some t =>
    if t.type ≠ .tVAR then
      (.error (newParseError what (prevPos tokens current)), current)
    else
      match parseFloat t.value t.pos with
      | .error e => (.error e, current)
      | .ok x =>
        if tokenTypeAt tokens (current + 1) ≠ some .tCOMMA then
          (.error (newParseError "expected , between parameters"
            (prevPos tokens (current + 1))), current + 1)
        else (.ok x, current + 2)
  | none => (.error (newParseError what (prevPos tokens current)), current)

/-- A final `num RPAREN` parameter step. -/
def parseParamRParen (tokens : List Token) (current : ℕ)
    (what next : String) : Except ParseError ℚ × ℕ :=
  match tokens.get? current with
  | some t =>
    if t.type ≠ .tVAR then
      (.error (newParseError what (prevPos tokens current)), current)
    else
      match parseFloat t.value t.pos with
      | .error e => (.error e, current)
      | .ok x =>
        if tokenTypeAt tokens (current + 1) ≠ some .tRPAREN then
          (.error (newParseError next (prevPos tokens (current + 1))),
           current + 1)
        else (.ok x, current + 2)
  | none => (.error (newParseError what (prevPos tokens current)), current)

/-- `ParseTriangular`: parse `TRIANGULAR(x1, x2, x3)`. -/
def ParseTriangular (tokens : List Token) (current : ℕ) :
    Except ParseError Membership × ℕ :=
  if tokenTypeAt tokens current ≠ some .tLPAREN then
    (.error (newParseError "expected ( after TRIANGULAR"
      (prevPos tokens current)), current)
  else
    match parseParamComma tokens (current + 1)
        "expected first parameter for TRIANGULAR" with
    | (.error e, c) => (.error e, c)
    | (.ok x1, c1) =>
      match parseParamComma tokens c1
          "expected second parameter for TRIANGULAR" with
      | (.error e, c) => (.error e, c)
      | (.ok x2, c2) =>
        match parseParamRParen tokens c2
            "expected third parameter for TRIANGULAR"
            "expected ) after TRIANGULAR parameters" with
        | (.error e, c) => (.error e, c)
        | (.ok x3, c3) => (.ok (Membership.triangular x1 x2 x3), c3)

/-- `ParseTrapezoid`: parse `TRAPEZOID(x1, x2, x3, x4)`. -/
def ParseTrapezoid (tokens : List Token) (current : ℕ) :
    Except ParseError Membership × ℕ :=
  if tokenTypeAt tokens current ≠ some .tLPAREN then
    (.error (newParseError "expected ( after TRAPEZOID"
      (prevPos tokens current)), current)
  else
    match parseParamComma tokens (current + 1)
        "expected first parameter for TRAPEZOID" with
    | (.error e, c) => (.error e, c)
    | (.ok x1, c1) =>
      match parseParamComma tokens c1
          "expected second parameter for TRAPEZOID" with
      | (.error e, c) => (.error e, c)
      | (.ok x2, c2) =>
        match parseParamComma tokens c2
            "expected third parameter for TRAPEZOID" with
        | (.error e, c) => (.error e, c)
        | (.ok x3, c3) =>
          match parseParamRParen tokens c3
              "expected fourth parameter for TRAPEZOID"
              "expected ) after TRAPEZOID parameters" with
          | (.error e, c) => (.error e, c)
          | (.ok x4, c4) => (.ok (Membership.trapezoid x1 x2 x3 x4), c4)

/-- The membership-function dispatch of `parseMembershipFunction` over
the default registry `DefaultMemberships` (LINEAR, TRIANGULAR,
TRAPEZOID, INVERTED; `ParseRulesAndVariables` without options always
uses the defaults), with `ParseInverted` recursing through the
registry's parse callback; the fuel bounds that recursion and is never
exhausted when it exceeds the token count.  Go would panic indexing
past the end of the tokens inside the callback; that is an error
here. -/
def parseMembershipValue : ℕ → List Token → ℕ →
    Except ParseError Membership × ℕ
  | 0, tokens, current =>
    (.error (newParseError "recursion limit" (errPosAt tokens current)),
     current)
  | fuel + 1, tokens, current =>
    match tokens.get? current with
    | none =>
      (.error (newParseError "expected membership function type"
        (prevPos tokens current)), current)
    | some ft =>
      match ft.type with
      | .tLINEAR => ParseLinear tokens (current + 1)
      | .tTRIANGULAR => ParseTriangular tokens (current + 1)
      | .tTRAPEZOID => ParseTrapezoid tokens (current + 1)
      | .tINVERTED =>
        if tokenTypeAt tokens (current + 1) ≠ some .tLPAREN then
          (.error (newParseError "expected ( after INVERTED"
            (prevPos tokens (current + 1))), current + 1)
        else
          match parseMembershipValue fuel tokens (current + 2) with
          | (.error e, c) => (.error e, c)
          | (.ok inner, c2) =>
            if tokenTypeAt tokens c2 ≠ some .tRPAREN then
              (.error (newParseError "expected ) after INVERTED function"
                (prevPos tokens c2)), c2)
            else (.ok (Membership.inverted inner), c2 + 1)
      | _ =>
        (.error (newParseError
          ("unknown membership function type: " ++ ft.value) ft.pos),
         current + 1)

/-- `parseMembershipFunction`: the in-range guard followed by the
registry dispatch. -/
def parseMembershipFunction (fuel : ℕ) (tokens : List Token)
    (current : ℕ) : Except ParseError Membership × ℕ :=
  if tokens.length ≤ current then
    (.error (newParseError "expected membership function type"
      (prevPos tokens current)), current)
  else parseMembershipValue fuel tokens current

/-- `parseIsExpression`: `variable IS term`; returns the pair and the
new cursor, or a positioned error with the cursor where it stopped. -/
def parseIsExpression (tokens : List Token) (current : ℕ) :
    Except ParseError (String × String) × ℕ :=
  match tokens.get? current with
  | some tv =>
    if tv.type ≠ .tVAR then
      (.error (newParseError "expected variable name" (errPosAt tokens current)),
       current)
    else
      if tokenTypeAt tokens (current + 1) ≠ some .tIS then
        (.error (newParseError "expected IS after variable"
          ⟨tv.pos.line, tv.pos.column + tv.value.length + 1⟩), current + 1)
      else
        match tokens.get? (current + 2) with
        | some tt =>
          if tt.type ≠ .tVAR then
            (.error (newParseError "expected term name after IS"
              (errPosAt tokens (current + 2))), current + 2)
          else (.ok (tv.value, tt.value), current + 3)
        | none =>
          (.error (newParseError "expected term name after IS"
            (errPosAt tokens (current + 2))), current + 2)
  | none =>
    (.error (newParseError "expected variable name" (errPosAt tokens current)),
     current)

mutual

/-- `parseExpression`, fuel-bounded (the Go recursion terminates because
the cursor advances; the fuel is never exhausted when it exceeds the
remaining token count): NOT prefix, parenthesized groups, and simple
`IS` expressions, each followed by an optional logical combination. -/
def parseExpression : ℕ → List Token → ℕ → Except ParseError Expr × ℕ
  | 0, tokens, current =>
    (.error (newParseError "recursion limit" (errPosAt tokens current)),
     current)
  | fuel + 1, tokens, current =>
    if tokenTypeAt tokens current = some .tNOT then
      if tokenTypeAt tokens (current + 1) = some .tLPAREN then
        match parseExpression fuel tokens (current + 2) with
        | (.error e, c) => (.error e, c)
        | (.ok expr, c2) =>
          if tokenTypeAt tokens c2 ≠ some .tRPAREN then
            (.error (newParseError "missing closing parenthesis"
              (errPosAt tokens c2)), c2)
          else parseLogicalCombination fuel tokens (c2 + 1) (Expr.not expr)
      else
        match (if tokenTypeAt tokens (current + 1) = some .tVAR then
            match parseIsExpression tokens (current + 1) with
            | (.error e, c) => (.error e, c)
            | (.ok (v, t), c) => (.ok (Expr.is v t), c)
          else parseExpression fuel tokens (current + 1)) with
        | (.error e, c) => (.error e, c)
        | (.ok expr, c2) =>
          parseLogicalCombination fuel tokens c2 (Expr.not expr)
    else if tokenTypeAt tokens current = some .tLPAREN then
      match parseExpression fuel tokens (current + 1) with
      | (.error e, c) => (.error e, c)
      | (.ok expr, c2) =>
        if tokenTypeAt tokens c2 ≠ some .tRPAREN then
          (.error (newParseError "missing closing parenthesis"
            (errPosAt tokens c2)), c2)
        else parseLogicalCombination fuel tokens (c2 + 1) expr
    else
      match parseIsExpression tokens current with
      | (.error e, c) => (.error e, c)
      | (.ok (v, t), c2) =>
        parseLogicalCombination fuel tokens c2 (Expr.is v t)

/-- `parseLogicalCombination`: an optional AND/OR followed by the right
operand, flattening child lists when either operand is already an
And (resp. Or) node. -/
def parseLogicalCombination : ℕ → List Token → ℕ → Expr →
    Except ParseError Expr × ℕ
  | 0, tokens, current, _ =>
    (.error (newParseError "recursion limit" (errPosAt tokens current)),
     current)
  | fuel + 1, tokens, current, left =>
    if tokenTypeAt tokens current = some .tAND then
      match parseExpression fuel tokens (current + 1) with
      | (.error e, c) => (.error e, c)
      | (.ok right, c2) =>
        match left, right with
        | Expr.and ls, Expr.and rs => (.ok (Expr.and (ls ++ rs)), c2)
        | Expr.and ls, r => (.ok (Expr.and (ls ++ [r])), c2)
        | l, Expr.and rs => (.ok (Expr.and (l :: rs)), c2)
        | l, r => (.ok (Expr.and [l, r]), c2)
    else if tokenTypeAt tokens current = some .tOR then
      match parseExpression fuel tokens (current + 1) with
      | (.error e, c) => (.error e, c)
      | (.ok right, c2) =>
        match left, right with
        | Expr.or ls, Expr.or rs => (.ok (Expr.or (ls ++ rs)), c2)
        | Expr.or ls, r => (.ok (Expr.or (ls ++ [r])), c2)
        | l, Expr.or rs => (.ok (Expr.or (l :: rs)), c2)
        | l, r => (.ok (Expr.or [l, r]), c2)
    else (.ok left, current)

end

/-- The recovery skip after a rule that does not start with IF: advance
to the next `;` and past it (or to the end of the tokens). -/
def skipPastSemi : ℕ → List Token → ℕ → ℕ
  | 0, _, c => c
  | f + 1, tokens, c =>
    match tokenTypeAt tokens c with
    | none => c
    | some .tSEMI => c + 1
    | some _ => skipPastSemi f tokens (c + 1)

/-- The recovery skip after a missing semicolon: advance to the next
`IF` (or the end of the tokens). -/
def skipToIF : ℕ → List Token → ℕ → ℕ
  | 0, _, c => c
  | f + 1, tokens, c =>
    match tokenTypeAt tokens c with
    | none => c
    | some .tIF => c
    | some _ => skipToIF f tokens (c + 1)

/-- `parseRule`: `IF expr THEN variable IS term ;`.  Mirrors the Go
return contract exactly: at end of tokens neither a rule nor an error;
a non-IF start records an error and skips past the next semicolon; a
missing trailing semicolon returns BOTH the salvaged rule and an error,
after skipping to the next IF. -/
def parseRule (fuel : ℕ) (tokens : List Token) (current : ℕ) :
    Option Rule × Option ParseError × ℕ :=
  match tokens.get? current with
  | none => (none, none, current)
  | some t0 =>
    if t0.type ≠ .tIF then
      (none,
       some (newParseError
         ("expected rule to start with IF, found " ++ t0.value) t0.pos),
       skipPastSemi tokens.length tokens current)
    else
      match parseExpression fuel tokens (current + 1) with
      | (.error e, c) => (none, some e, c)
      | (.ok premise, c2) =>
        if tokenTypeAt tokens c2 ≠ some .tTHEN then
          (none,
           some (newParseError "expected THEN after premise"
             (errPosAt tokens c2)), c2)
        else
          match parseIsExpression tokens (c2 + 1) with
          | (.error e, c) => (none, some e, c)
          | (.ok (v, t), c3) =>
            if tokenTypeAt tokens c3 = some .tSEMI then
              (some ⟨premise, ⟨v, t⟩⟩, none, c3 + 1)
            else
              (some ⟨premise, ⟨v, t⟩⟩,
               some (newParseError "missing semicolon at end of rule"
                 (errPosAt tokens c3)),
               skipToIF tokens.length tokens c3)

/-- `parseTermDefinition`: `TERM name membership`.  (The caller
guarantees the TERM token is in range; the out-of-range default would
be a panic in Go.) -/
def parseTermDefinition (fuel : ℕ) (tokens : List Token) (current : ℕ) :
    Except ParseError Term × ℕ :=
  match tokens.get? current with
  | none =>
    (.error (newParseError "expected term name" ⟨1, 1⟩), current + 1)
  | some termToken =>
    match tokens.get? (current + 1) with
    | some t1 =>
      if t1.type ≠ .tVAR then
        (.error (newParseError "expected term name" termToken.pos),
         current + 1)
      else
        match parseMembershipFunction fuel tokens (current + 2) with
        | (.error e, c) => (.error e, c)
        | (.ok m, c3) => (.ok ⟨t1.value, m⟩, c3)
    | none =>
      (.error (newParseError "expected term name" termToken.pos), current + 1)

/-- The term-list loop of `parseVariableDefinition`: terms separated by
optional commas, until the closing parenthesis (or the end of the
tokens). -/
def parseTermsLoop : ℕ → ℕ → List Token → ℕ →
    Except ParseError (List Term) × ℕ
  | 0, _, _, c => (.ok [], c)
  | f + 1, memFuel, tokens, c =>
    match tokens.get? c with
    | none => (.ok [], c)
    | some t =>
      if t.type = .tRPAREN then (.ok [], c)
      else if t.type ≠ .tTERM then
        (.error (newParseError "expected TERM in variable definition" t.pos),
         c)
      else
        match parseTermDefinition memFuel tokens c with
        | (.error e, c2) => (.error e, c2)
        | (.ok term, c2) =>
          let c3 := if tokenTypeAt tokens c2 = some .tCOMMA then c2 + 1 else c2
          match parseTermsLoop f memFuel tokens c3 with
          | (.error e, c4) => (.error e, c4)
          | (.ok ts, c4) => (.ok (term :: ts), c4)

/-- `parseVariableDefinition`: `DEFINE name ( term, ... ) ;`.  The
`NewVariable` duplicate-term panic becomes an error. -/
def parseVariableDefinition (fuel : ℕ) (tokens : List Token)
    (current : ℕ) : Except ParseError Variable × ℕ :=
  match tokens.get? current with
  | none =>
    (.error (newParseError "expected variable name after DEFINE" ⟨1, 1⟩),
     current + 1)
  | some defineToken =>
    match tokens.get? (current + 1) with
    | some t1 =>
      if t1.type ≠ .tVAR then
        (.error (newParseError "expected variable name after DEFINE"
          defineToken.pos), current + 1)
      else
        if tokenTypeAt tokens (current + 2) ≠ some .tLPAREN then
          (.error (newParseError "expected ( after variable name"
            (prevPos tokens (current + 2))), current + 2)
        else
          match parseTermsLoop tokens.length fuel tokens (current + 3) with
          | (.error e, c3) => (.error e, c3)
          | (.ok terms, c3) =>
            if tokenTypeAt tokens c3 ≠ some .tRPAREN then
              (.error (newParseError
                "expected ) at end of variable definition"
                (prevPos tokens c3)), c3)
            else if tokenTypeAt tokens (c3 + 1) ≠ some .tSEMI then
              (.error (newParseError "expected ; after variable definition"
                (prevPos tokens (c3 + 1))), c3 + 1)
            else
              match NewVariable t1.value terms with
              | .ok v => (.ok v, c3 + 2)
              | .error _ =>
                (.error (newParseError "panic: term already exists" t1.pos),
                 c3 + 2)
    | none =>
      (.error (newParseError "expected variable name after DEFINE"
        defineToken.pos), current + 1)

/-- The compiled rules and variables (`ParseResult`). -/
structure ParseResult where
  rules : List Rule
  vars : List Variable

/-- The statement loop of `Parser.parse`: rules and variable
definitions in order, collecting errors and salvaged results. -/
def parseLoop : ℕ → List Token → ℕ →
    List Rule × List Variable × List String
  | 0, _, _ => ([], [], [])
  | f + 1, tokens, current =>
    if tokens.length ≤ current then ([], [], [])
    else if tokenTypeAt tokens current = some .tDEFINE then
      match parseVariableDefinition (tokens.length + 1) tokens current with
      | (.error e, c2) =>
        let rest := parseLoop f tokens c2
        (rest.1, rest.2.1, e.render :: rest.2.2)
      | (.ok v, c2) =>
        let rest := parseLoop f tokens c2
        (rest.1, v :: rest.2.1, rest.2.2)
    else
      match parseRule (tokens.length + 1) tokens current with
      | (orule, oerr, c2) =>
        let rest := parseLoop f tokens c2
        (match orule with
          | some r => r :: rest.1
          | none => rest.1,
         rest.2.1,
         match oerr with
          | some e => e.render :: rest.2.2
          | none => rest.2.2)

/-- `Parser.parse`: run the statement loop; when any error was recorded,
return a nil result together with the single joined error (salvaged
rules and variables are discarded), else the result and no error.  The
pair mirrors Go's `(*ParseResult, error)` return. -/
def parserParse (fuel : ℕ) (tokens : List Token) :
    Option ParseResult × Option String :=
  let acc := parseLoop fuel tokens 0
  if acc.2.2.isEmpty then (some ⟨acc.1, acc.2.1⟩, none)
  else
    (none, some ("parsing errors: " ++ String.intercalate "; " acc.2.2))

/-- `ParseRulesAndVariables(text)`: tokenize (which never fails) and
parse; a parse error is wrapped with the "parsing error" prefix. -/
def ParseRulesAndVariables (text : String) :
    Option ParseResult × Option String :=
  match parserParse ((tokenize text).length + 1) (tokenize text) with
  | (res, none) => (res, none)
  | (res, some msg) => (res, some ("parsing error: " ++ msg))

/-- C2 counterexample: on `"foo ; IF a IS b THEN c IS d ;"` — a
malformed first statement followed by a well-formed rule — the parse
loop does salvage the rule internally and records one error, but
`ParseRulesAndVariables` returns a nil result set together with the
joined error: the salvaged rule list is not returned.  Likewise for a
rule missing its trailing semicolon. -/
theorem parse_salvage_not_returned_cex :
    (parseLoop ((tokenize "foo ; IF a IS b THEN c IS d ;").length + 1)
        (tokenize "foo ; IF a IS b THEN c IS d ;") 0).1 =
      [⟨Expr.is "a" "b", ⟨"c", "d"⟩⟩] ∧
    (parseLoop ((tokenize "foo ; IF a IS b THEN c IS d ;").length + 1)
        (tokenize "foo ; IF a IS b THEN c IS d ;") 0).2.2.length = 1 ∧
    (ParseRulesAndVariables "foo ; IF a IS b THEN c IS d ;").1 = none ∧
    (ParseRulesAndVariables "foo ; IF a IS b THEN c IS d ;").2.isSome =
      true ∧
    (parseLoop ((tokenize "IF a IS b THEN c IS d").length + 1)
        (tokenize "IF a IS b THEN c IS d") 0).1 =
      [⟨Expr.is "a" "b", ⟨"c", "d"⟩⟩] ∧
    (ParseRulesAndVariables "IF a IS b THEN c IS d").1 = none := by
  refine ⟨rfl, by decide, rfl, by decide, rfl, rfl⟩

/-- C2 (amended): parser errors are collected across the statements of
one pass and joined into a single reported error, and well-formed rules
(including one missing only its trailing semicolon) are salvaged by the
parse loop; but whenever at least one error was recorded, the parser
returns a nil result set alongside the joined error — the salvaged
rules and variables are discarded, never returned together with the
error. -/
theorem parse_errors_discard_salvage :
    (∀ (fuel : ℕ) (tokens : List Token),
      (parseLoop fuel tokens 0).2.2 ≠ [] →
      parserParse fuel tokens =
        (none, some ("parsing errors: " ++
          String.intercalate "; " (parseLoop fuel tokens 0).2.2))) ∧
    (∀ (fuel : ℕ) (tokens : List Token),
      (parseLoop fuel tokens 0).2.2 = [] →
      parserParse fuel tokens =
        (some ⟨(parseLoop fuel tokens 0).1, (parseLoop fuel tokens 0).2.1⟩,
         none)) ∧
    (∀ text : String,
      (ParseRulesAndVariables text).1.isSome ↔
        (ParseRulesAndVariables text).2 = none) := by
  refine ⟨?_, ?_, ?_⟩
  · intro fuel tokens h
    unfold parserParse
    simp [List.isEmpty_iff, h]
  · intro fuel tokens h
    unfold parserParse
    simp [List.isEmpty_iff, h]
  · intro text
    have hx : (parserParse ((tokenize text).length + 1)
        (tokenize text)).1.isSome ↔
        (parserParse ((tokenize text).length + 1) (tokenize text)).2 =
          none := by
      unfold parserParse
      by_cases he : ((parseLoop ((tokenize text).length + 1)
          (tokenize text) 0).2.2).isEmpty <;> simp [he]
    unfold ParseRulesAndVariables
    cases hp : parserParse ((tokenize text).length + 1) (tokenize text) with
    | mk res err =>
      rw [hp] at hx
      cases err with
      | none => simpa using hx
      | some msg => simpa using hx

/-- Witness for `parse_errors_discard_salvage` at concrete inputs: a
text with an error gives a nil result and the joined message; an
error-free text returns its results with no error. -/
theorem parse_errors_discard_salvage_witness :
    (parserParse ((tokenize "bad ;").length + 1) (tokenize "bad ;") =
      (none, some ("parsing errors: " ++ String.intercalate "; "
        (parseLoop ((tokenize "bad ;").length + 1)
          (tokenize "bad ;") 0).2.2))) ∧
    (parserParse ((tokenize "IF a IS b THEN c IS d ;").length + 1)
        (tokenize "IF a IS b THEN c IS d ;") =
      (some ⟨(parseLoop ((tokenize "IF a IS b THEN c IS d ;").length + 1)
          (tokenize "IF a IS b THEN c IS d ;") 0).1,
        (parseLoop ((tokenize "IF a IS b THEN c IS d ;").length + 1)
          (tokenize "IF a IS b THEN c IS d ;") 0).2.1⟩, none)) ∧
    ((ParseRulesAndVariables "IF a IS b THEN c IS d ;").1.isSome ↔
      (ParseRulesAndVariables "IF a IS b THEN c IS d ;").2 = none) := by
  refine ⟨parse_errors_discard_salvage.1 _ _ (by decide),
    parse_errors_discard_salvage.2.1 _ _ (by decide),
    parse_errors_discard_salvage.2.2 _⟩

/-- C6: parsing `LINEAR(x1, x2)` with x1 > x2 yields the descending
ramp `Inverted(Linear(x2, x1))` — not a Linear with reversed bounds —
and with x1 < x2 it yields `Linear(x1, x2)`. -/
theorem parse_linear_descending_spec (tokens : List Token) (current : ℕ)
    (t1 t3 : Token) (x1 x2 : ℚ)
    (hlp : tokenTypeAt tokens current = some .tLPAREN)
    (ht1 : tokens.get? (current + 1) = some t1) (ht1v : t1.type = .tVAR)
    (hf1 : parseFloat t1.value t1.pos = .ok x1)
    (hc : tokenTypeAt tokens (current + 2) = some .tCOMMA)
    (ht3 : tokens.get? (current + 3) = some t3) (ht3v : t3.type = .tVAR)
    (hf2 : parseFloat t3.value t3.pos = .ok x2)
    (hrp : tokenTypeAt tokens (current + 4) = some .tRPAREN) :
    (x2 < x1 →
      ParseLinear tokens current =
        (.ok (Membership.inverted (Membership.linear x2 x1)), current + 5)) ∧
    (x1 < x2 →
      ParseLinear tokens current =
        (.ok (Membership.linear x1 x2), current + 5)) := by
  rw [List.get?_eq_getElem?] at ht1 ht3
  constructor
  · intro hgt
    simp [ParseLinear, hlp, ht1, ht1v, hf1, hc, ht3, ht3v, hf2, hrp,
      not_lt.mpr (le_of_lt hgt), hgt]
  · intro hlt
    simp [ParseLinear, hlp, ht1, ht1v, hf1, hc, ht3, ht3v, hf2, hrp, hlt]

/-- Witness for `parse_linear_descending_spec`: `LINEAR(10, 0)` becomes
`Inverted(Linear(0, 10))` and `LINEAR(0, 10)` becomes `Linear(0, 10)`. -/
theorem parse_linear_descending_spec_witness :
    ParseLinear
      [⟨.tLPAREN, "(", ⟨1, 1⟩⟩, ⟨.tVAR, "10", ⟨1, 3⟩⟩,
       ⟨.tCOMMA, ",", ⟨1, 5⟩⟩, ⟨.tVAR, "0", ⟨1, 7⟩⟩,
       ⟨.tRPAREN, ")", ⟨1, 8⟩⟩] 0 =
      (.ok (Membership.inverted (Membership.linear 0 10)), 5) ∧
    ParseLinear
      [⟨.tLPAREN, "(", ⟨1, 1⟩⟩, ⟨.tVAR, "0", ⟨1, 3⟩⟩,
       ⟨.tCOMMA, ",", ⟨1, 5⟩⟩, ⟨.tVAR, "10", ⟨1, 7⟩⟩,
       ⟨.tRPAREN, ")", ⟨1, 8⟩⟩] 0 =
      (.ok (Membership.linear 0 10), 5) := by
  constructor
  · have h := (parse_linear_descending_spec
      [⟨.tLPAREN, "(", ⟨1, 1⟩⟩, ⟨.tVAR, "10", ⟨1, 3⟩⟩,
       ⟨.tCOMMA, ",", ⟨1, 5⟩⟩, ⟨.tVAR, "0", ⟨1, 7⟩⟩,
       ⟨.tRPAREN, ")", ⟨1, 8⟩⟩] 0
      ⟨.tVAR, "10", ⟨1, 3⟩⟩ ⟨.tVAR, "0", ⟨1, 7⟩⟩ 10 0
      rfl rfl rfl (by decide) rfl rfl rfl (by decide) rfl).1
    exact h (by norm_num)
  · have h := (parse_linear_descending_spec
      [⟨.tLPAREN, "(", ⟨1, 1⟩⟩, ⟨.tVAR, "0", ⟨1, 3⟩⟩,
       ⟨.tCOMMA, ",", ⟨1, 5⟩⟩, ⟨.tVAR, "10", ⟨1, 7⟩⟩,
       ⟨.tRPAREN, ")", ⟨1, 8⟩⟩] 0
      ⟨.tVAR, "0", ⟨1, 3⟩⟩ ⟨.tVAR, "10", ⟨1, 7⟩⟩ 0 10
      rfl rfl rfl (by decide) rfl rfl rfl (by decide) rfl).2
    exact h (by norm_num)

/-- The per-line lengths of a text, lines split on newline as the
tokenizer does. -/
def lineLengths (s : String) : List ℕ :=
  (splitOnChar '\n' s.data).map List.length

/-- Whether a character list contains no `//` or `/*` comment
delimiter. -/
def noCommentStart : List Char → Bool
  | '/' :: '/' :: _ => false
  | '/' :: '*' :: _ => false
  | _ :: rest => noCommentStart rest
  | [] => true

theorem removeCommentsAux_count_nl (st : ScanState) (l : List Char) :
    l.count '\n' ≤ (removeCommentsAux st l).count '\n' ∧
      (removeCommentsAux st l).count '\n' ≤ l.count '\n' + 1 := by
  induction st, l using removeCommentsAux.induct with
  | case2 c rest h ih =>
    by_cases hc : c = '\n' <;>
      simp [removeCommentsAux, hc, List.count_cons] <;> omega
  | case6 n c rest hc ih =>
    simp [removeCommentsAux, hc, List.count_cons]
    omega
  | case9 c rest h1 h2 ih =>
    simp only [removeCommentsAux, List.count_cons]
    omega
  | _ =>
    simp_all [removeCommentsAux, List.count_cons, List.count_append,
      List.count_replicate]

theorem removeCommentsAux_comment_free :
    ∀ (st : ScanState) (l : List Char), st = ScanState.code →
      noCommentStart l = true → removeCommentsAux ScanState.code l = l := by
  intro st l
  induction st, l using removeCommentsAux.induct with
  | case7 rest ih =>
    intro _ hn
    exact absurd hn (by simp [noCommentStart])
  | case8 rest ih =>
    intro _ hn
    exact absurd hn (by simp [noCommentStart])
  | case9 c rest h1 h2 ih =>
    intro _ hn
    simp only [noCommentStart] at hn
    simp only [removeCommentsAux]
    rw [ih rfl hn]
  | case10 => intro _ _; rfl
  | _ => intro h _; exact absurd h (by simp)

/-- C9 (amended): the comment pass replaces comment interiors with
spaces and keeps every input newline — the newline count never drops,
and grows by at most one (exactly when a `//` comment reaches end of
input) — and comment-free text is returned verbatim; but the `/*` and
`*/` delimiters each collapse to a single space and an unterminated
`//` comment appends a newline, so the output's line count and line
lengths do not always match the input's. -/
theorem removeComments_structure_spec :
    (∀ s : String, noCommentStart s.data = true → removeComments s = s) ∧
    (∀ s : String,
      s.data.count '\n' ≤ (removeComments s).data.count '\n' ∧
      (removeComments s).data.count '\n' ≤ s.data.count '\n' + 1) := by
  constructor
  · intro s hn
    unfold removeComments
    rw [removeCommentsAux_comment_free ScanState.code s.data rfl hn]
  · intro s
    exact removeCommentsAux_count_nl ScanState.code s.data

/-- Witness for `removeComments_structure_spec`: comment-free text is
unchanged; the newline bounds hold on a text whose `//` comment reaches
end of input. -/
theorem removeComments_structure_spec_witness :
    removeComments "IF a IS b\nTHEN c IS d ;" = "IF a IS b\nTHEN c IS d ;" ∧
    ("x // c".data.count '\n' ≤ (removeComments "x // c").data.count '\n' ∧
      (removeComments "x // c").data.count '\n' ≤
        "x // c".data.count '\n' + 1) :=
  ⟨removeComments_structure_spec.1 _ (by decide),
   removeComments_structure_spec.2 _⟩

/-- C9 counterexample: `removeComments` does not preserve line lengths
(`"/**/"` collapses from 4 characters to 2) nor even the line count
(`"x // c"` gains a newline because the `//` comment reaches end of
input), contradicting the claim that every stripped character becomes a
space and output lines match input lines in number and length. -/
theorem removeComments_not_line_preserving :
    removeComments "/**/" = "  " ∧
    lineLengths (removeComments "/**/") = [2] ∧
    lineLengths "/**/" = [4] ∧
    removeComments "x // c" = "x \n" ∧
    lineLengths (removeComments "x // c") = [2, 0] ∧
    lineLengths "x // c" = [6] ∧
    ¬(2 = 4 ∧ (1 : ℕ) = 2) := by
  refine ⟨by decide, by decide, by decide, by decide, by decide, by decide,
    by decide⟩

theorem get?_eq_head?_drop {α : Type} (l : List α) (n : ℕ) :
    l.get? n = (l.drop n).head? := by
  induction n generalizing l with
  | zero => cases l <;> rfl
  | succ k ih =>
    cases l with
    | nil => rfl
    | cons a t => exact ih t

theorem drop_succ_tail {α : Type} (l : List α) (n : ℕ) :
    l.drop (n + 1) = (l.drop n).tail := by
  induction n generalizing l with
  | zero => cases l <;> rfl
  | succ k ih =>
    cases l with
    | nil => rfl
    | cons a t => exact ih t

theorem drop_cons_facts {α : Type} (l : List α) (n : ℕ) (a : α)
    (t : List α) (h : l.drop n = a :: t) :
    l.get? n = some a ∧ l.drop (n + 1) = t := by
  constructor
  · rw [get?_eq_head?_drop, h]
    rfl
  · rw [drop_succ_tail, h]
    rfl

/-- The token sequence of a chain of simple IS-expressions joined by
one connective (positions are irrelevant to the parsed structure and
fixed at 1:1). -/
def chainTokens (conn : TokenType) (connWord : String) :
    List (String × String) → List Token
  | [] => []
  | [(v, t)] =>
    [⟨.tVAR, v, ⟨1, 1⟩⟩, ⟨.tIS, "IS", ⟨1, 1⟩⟩, ⟨.tVAR, t, ⟨1, 1⟩⟩]
  | (v, t) :: ps =>
    ⟨.tVAR, v, ⟨1, 1⟩⟩ :: ⟨.tIS, "IS", ⟨1, 1⟩⟩ :: ⟨.tVAR, t, ⟨1, 1⟩⟩ ::
      ⟨conn, connWord, ⟨1, 1⟩⟩ :: chainTokens conn connWord ps

/-- The expression an AND chain parses to: the single operand for a
one-element chain, else one n-ary And of the operands in order. -/
def chainExprAnd : List (String × String) → Expr
  | [(v, t)] => Expr.is v t
  | ps => Expr.and (ps.map fun p => Expr.is p.1 p.2)

/-- The Or counterpart of `chainExprAnd`. -/
def chainExprOr : List (String × String) → Expr
  | [(v, t)] => Expr.is v t
  | ps => Expr.or (ps.map fun p => Expr.is p.1 p.2)

theorem parse_chain_and :
    ∀ (ps : List (String × String)) (v t : String) (tokens : List Token)
      (c : ℕ) (rest : List Token) (fuel : ℕ),
      tokens.drop c = chainTokens .tAND "AND" ((v, t) :: ps) ++ rest →
      (∀ t0, rest.head? = some t0 → t0.type ≠ .tAND ∧ t0.type ≠ .tOR) →
      2 * (ps.length + 1) ≤ fuel →
      parseExpression fuel tokens c =
        (.ok (chainExprAnd ((v, t) :: ps)),
         c + (4 * (ps.length + 1) - 1)) := by
  intro ps
  induction ps with
  | nil =>
    intro v t tokens c rest fuel hdrop hrest hfuel
    simp only [chainTokens, List.cons_append, List.nil_append] at hdrop
    obtain ⟨hg0, hd1⟩ := drop_cons_facts _ _ _ _ hdrop
    obtain ⟨hg1, hd2⟩ := drop_cons_facts _ _ _ _ hd1
    obtain ⟨hg2, hd3⟩ := drop_cons_facts _ _ _ _ hd2
    obtain ⟨f, rfl⟩ : ∃ f, fuel = f + 2 := ⟨fuel - 2, by omega⟩
    have hget3 : tokens[c + 3]? = rest.head? := by
      rw [← List.get?_eq_getElem?, get?_eq_head?_drop,
        show c + 3 = c + 1 + 1 + 1 from rfl, hd3]
    simp only [parseExpression, parseIsExpression, tokenTypeAt, hg0, hg1,
      hg2, Option.map_some']
    cases hrh : rest.head? with
    | none =>
      rw [hrh] at hget3
      simp [parseLogicalCombination, tokenTypeAt, hget3, chainExprAnd]
    | some t0 =>
      rw [hrh] at hget3
      obtain ⟨hna, hno⟩ := hrest t0 hrh
      simp [parseLogicalCombination, tokenTypeAt, hget3, hna, hno,
        chainExprAnd]
  | cons q qs ih =>
    intro v t tokens c rest fuel hdrop hrest hfuel
    obtain ⟨qv, qt⟩ := q
    simp only [chainTokens, List.cons_append] at hdrop
    obtain ⟨hg0, hd1⟩ := drop_cons_facts _ _ _ _ hdrop
    obtain ⟨hg1, hd2⟩ := drop_cons_facts _ _ _ _ hd1
    obtain ⟨hg2, hd3⟩ := drop_cons_facts _ _ _ _ hd2
    obtain ⟨hg3, hd4⟩ := drop_cons_facts _ _ _ _ hd3
    obtain ⟨f, rfl⟩ : ∃ f, fuel = f + 2 := ⟨fuel - 2, by omega⟩
    have hg3x : tokens[c + 3]? =
        some (⟨.tAND, "AND", ⟨1, 1⟩⟩ : Token) := by
      rw [← List.get?_eq_getElem?]
      exact hg3
    have hihx : parseExpression f tokens (c + 4) =
        (.ok (chainExprAnd ((qv, qt) :: qs)),
         c + 4 + (4 * (qs.length + 1) - 1)) :=
      ih qv qt tokens (c + 1 + 1 + 1 + 1) rest f hd4 hrest
        (by simp only [List.length_cons] at hfuel ⊢; omega)
    simp only [parseExpression, parseIsExpression, tokenTypeAt, hg0, hg1,
      hg2, Option.map_some']
    cases qs with
    | nil =>
      simp [parseLogicalCombination, tokenTypeAt, hg3x, hihx, chainExprAnd]
    | cons r rs =>
      simp [parseLogicalCombination, tokenTypeAt, hg3x, hihx, chainExprAnd]
      omega

theorem parse_chain_or :
    ∀ (ps : List (String × String)) (v t : String) (tokens : List Token)
      (c : ℕ) (rest : List Token) (fuel : ℕ),
      tokens.drop c = chainTokens .tOR "OR" ((v, t) :: ps) ++ rest →
      (∀ t0, rest.head? = some t0 → t0.type ≠ .tAND ∧ t0.type ≠ .tOR) →
      2 * (ps.length + 1) ≤ fuel →
      parseExpression fuel tokens c =
        (.ok (chainExprOr ((v, t) :: ps)),
         c + (4 * (ps.length + 1) - 1)) := by
  intro ps
  induction ps with
  | nil =>
    intro v t tokens c rest fuel hdrop hrest hfuel
    simp only [chainTokens, List.cons_append, List.nil_append] at hdrop
    obtain ⟨hg0, hd1⟩ := drop_cons_facts _ _ _ _ hdrop
    obtain ⟨hg1, hd2⟩ := drop_cons_facts _ _ _ _ hd1
    obtain ⟨hg2, hd3⟩ := drop_cons_facts _ _ _ _ hd2
    obtain ⟨f, rfl⟩ : ∃ f, fuel = f + 2 := ⟨fuel - 2, by omega⟩
    have hget3 : tokens[c + 3]? = rest.head? := by
      rw [← List.get?_eq_getElem?, get?_eq_head?_drop,
        show c + 3 = c + 1 + 1 + 1 from rfl, hd3]
    simp only [parseExpression, parseIsExpression, tokenTypeAt, hg0, hg1,
      hg2, Option.map_some']
    cases hrh : rest.head? with
    | none =>
      rw [hrh] at hget3
      simp [parseLogicalCombination, tokenTypeAt, hget3, chainExprOr]
    | some t0 =>
      rw [hrh] at hget3
      obtain ⟨hna, hno⟩ := hrest t0 hrh
      simp [parseLogicalCombination, tokenTypeAt, hget3, hna, hno,
        chainExprOr]
  | cons q qs ih =>
    intro v t tokens c rest fuel hdrop hrest hfuel
    obtain ⟨qv, qt⟩ := q
    simp only [chainTokens, List.cons_append] at hdrop
    obtain ⟨hg0, hd1⟩ := drop_cons_facts _ _ _ _ hdrop
    obtain ⟨hg1, hd2⟩ := drop_cons_facts _ _ _ _ hd1
    obtain ⟨hg2, hd3⟩ := drop_cons_facts _ _ _ _ hd2
    obtain ⟨hg3, hd4⟩ := drop_cons_facts _ _ _ _ hd3
    obtain ⟨f, rfl⟩ : ∃ f, fuel = f + 2 := ⟨fuel - 2, by omega⟩
    have hg3x : tokens[c + 3]? =
        some (⟨.tOR, "OR", ⟨1, 1⟩⟩ : Token) := by
      rw [← List.get?_eq_getElem?]
      exact hg3
    have hihx : parseExpression f tokens (c + 4) =
        (.ok (chainExprOr ((qv, qt) :: qs)),
         c + 4 + (4 * (qs.length + 1) - 1)) :=
      ih qv qt tokens (c + 1 + 1 + 1 + 1) rest f hd4 hrest
        (by simp only [List.length_cons] at hfuel ⊢; omega)
    simp only [parseExpression, parseIsExpression, tokenTypeAt, hg0, hg1,
      hg2, Option.map_some']
    cases qs with
    | nil =>
      simp [parseLogicalCombination, tokenTypeAt, hg3x, hihx, chainExprOr]
    | cons r rs =>
      simp [parseLogicalCombination, tokenTypeAt, hg3x, hihx, chainExprOr]
      omega

/-- C7: a chain of n >= 2 simple IS-expressions joined exclusively by
AND (respectively exclusively by OR) parses to a single n-ary And
(respectively Or) node whose children are exactly the n operand
IS-expressions in source order, with no nested binary And/Or nodes. -/
theorem parse_and_or_flattening (ps : List (String × String)) (fuel : ℕ)
    (h2 : 2 ≤ ps.length) (hf : 2 * ps.length ≤ fuel) :
    parseExpression fuel (chainTokens .tAND "AND" ps) 0 =
      (.ok (Expr.and (ps.map fun p => Expr.is p.1 p.2)),
       4 * ps.length - 1) ∧
    parseExpression fuel (chainTokens .tOR "OR" ps) 0 =
      (.ok (Expr.or (ps.map fun p => Expr.is p.1 p.2)),
       4 * ps.length - 1) := by
  cases ps with
  | nil => exact absurd h2 (by decide)
  | cons p ps1 =>
    cases ps1 with
    | nil => exact absurd h2 (by simp)
    | cons q l =>
      obtain ⟨v, t⟩ := p
      obtain ⟨qv, qt⟩ := q
      constructor
      · have h := parse_chain_and ((qv, qt) :: l) v t
          (chainTokens .tAND "AND" ((v, t) :: (qv, qt) :: l)) 0 [] fuel
          (by simp) (by simp) (by simp_all)
        rw [h]
        simp [chainExprAnd]
      · have h := parse_chain_or ((qv, qt) :: l) v t
          (chainTokens .tOR "OR" ((v, t) :: (qv, qt) :: l)) 0 [] fuel
          (by simp) (by simp) (by simp_all)
        rw [h]
        simp [chainExprOr]

theorem parse_and_or_flattening_witness :
    (2 ≤ ([("a", "b"), ("c", "d"), ("e", "f")] :
        List (String × String)).length ∧
     2 * ([("a", "b"), ("c", "d"), ("e", "f")] :
        List (String × String)).length ≤ 6) ∧
    parseExpression 6
        (chainTokens .tAND "AND" [("a", "b"), ("c", "d"), ("e", "f")]) 0 =
      (.ok (Expr.and [Expr.is "a" "b", Expr.is "c" "d", Expr.is "e" "f"]),
       11) ∧
    parseExpression 6
        (chainTokens .tOR "OR" [("a", "b"), ("c", "d"), ("e", "f")]) 0 =
      (.ok (Expr.or [Expr.is "a" "b", Expr.is "c" "d", Expr.is "e" "f"]),
       11) := by
  have h := parse_and_or_flattening [("a", "b"), ("c", "d"), ("e", "f")] 6
    (by decide) (by decide)
  exact ⟨⟨by decide, by decide⟩, h.1, h.2⟩

end Fuzzy
